import Mathlib

/-!
# azure-storage-azcopy: client factory, test-resource names, set-properties scheduling

A shallow embedding of

* `common/clientFactory.go` (`createClient` and the four `Create…Client` wrappers),
* `e2etest/factory.go` (`generateName`, `generateBlobName`),
* the set-properties scheduling pipeline exercised by `cmd/zt_set_properties_test.go`.

Go strings are byte sequences (`len` counts bytes, `s[:n]` cuts bytes), so the
`e2etest` part works on `List UInt8`.  A Go `panic` is the `Except.error` case.
-/

set_option linter.dupNamespace false

namespace e2etest

/-- A Go string: an immutable sequence of bytes. -/
abbrev GoString := List UInt8

/-- The `asserter` interface, reduced to the one method `generateName` calls. -/
structure asserter where
  CompactScenarioName : GoString

/-- Library functions and the random source that `generateName` reads:
`strings.ToLower` and the text of a fresh `uuid.New().String()`. -/
structure Lib where
  ToLower : GoString → GoString
  guidSuffix : GoString

/-- The byte `-` that `fmt.Sprintf("%s-%s", …)` puts between its two arguments. -/
def dash : GoString := [45]

/-- The constant `blobPrefix = "blob"`. -/
def blobPrefix : GoString := [98, 108, 111, 98]

/-- The constant `containerPrefix = "e2e"`. -/
def containerPrefix : GoString := [101, 50, 101]

/-- `fmt.Sprintf("%s-%s", pfx, strings.ToLower(name))`. -/
def textualPortion (lib : Lib) (pfx name : GoString) : GoString :=
  pfx ++ dash ++ lib.ToLower name

/-- `generateName` of `e2etest/factory.go`.  `maxLen` is positive when the
subtraction happens and `len` is non-negative, so the difference cannot wrap. -/
def generateName (lib : Lib) (c : asserter) (pfx : GoString) (maxLen : Int) :
    Except String GoString :=
  let name := c.CompactScenarioName
  let text := textualPortion lib pfx name
  let guidSuffix := lib.guidSuffix
  if maxLen > 0 then
    let maxTextLen : Int := maxLen - (guidSuffix.length : Int)
    if maxTextLen < 1 then
      Except.error "max len too short"
    else
      let text := if (text.length : Int) > maxTextLen then text.take maxTextLen.toNat else text
      Except.ok (text ++ guidSuffix)
  else
    Except.ok (text ++ guidSuffix)

/-- `TestResourceNameGenerator.generateBlobName`. -/
def generateBlobName (lib : Lib) (c : asserter) : Except String GoString :=
  generateName lib c blobPrefix 0

/-- `strings.ToLower` on ASCII text: the bytes `A`..`Z` move to `a`..`z`. -/
def asciiToLower (s : GoString) : GoString :=
  s.map (fun b => if 65 ≤ b ∧ b ≤ 90 then b + 32 else b)

/-- A library to run `generateName` on: ASCII lowercasing and the three-byte suffix `xyz`. -/
def sampleLib : Lib :=
  { ToLower := asciiToLower
    guidSuffix := [120, 121, 122] }

/-- An asserter whose scenario name is `CD`. -/
def sampleAsserter : asserter :=
  { CompactScenarioName := [67, 68] }

end e2etest

namespace common

/-- The values of `ECredentialType` that `createClient` tells apart.  The enumeration is declared
outside the files at hand; `other` stands for each of its remaining values, which all take the
`default` arm of the switch. -/
inductive CredentialType where
  | OAuthToken
  | Anonymous
  | other (code : Nat)
  deriving DecidableEq, Repr

/-- `CredentialInfo`, reduced to the two fields `createClient` reads. -/
structure CredentialInfo (TI : Type) where
  CredentialType : CredentialType
  OAuthTokenInfo : TI

/-- `CredentialOpOptions`: the `LogError` field that `createClient` sets, and the remaining
fields, which the literal on line 47 leaves at their zero value. -/
structure CredentialOpOptions (L X : Type) where
  LogError : Option L
  others : X

/-- `newClientCallbacks[T, U]`: `U` (the shared-key credential type) is not used by a field. -/
structure newClientCallbacks (TC CO T U : Type) where
  TokenCredential : String → TC → CO → Option T × Option String
  NoCredential : String → CO → Option T × Option String

/-- What `createClient` uses without defining: the lifecycle manager's `Info`, the zero value
of the option fields, the two `OAuthTokenInfo` methods, `panicError` (`some v`: it panics with
value `v`; `none`: the configured handler returned) and the `%v` text of a credential type. -/
structure Externals (TI TC L X : Type) where
  glcmInfo : L
  zeroOthers : X
  IsEmpty : TI → Bool
  GetTokenCredential : TI → TC × Option String
  panicError : CredentialOpOptions L X → String → Option String
  fmtCredentialType : CredentialType → String

/-- The calls of `createClient` that are observed: `panicError` and the two callbacks. -/
inductive Call (TC CO L X : Type) where
  | panicError (o : CredentialOpOptions L X) (err : String)
  | TokenCredential (u : String) (tc : TC) (options : CO)
  | NoCredential (u : String) (options : CO)

/-- A finished run: the calls made, in order, and either the returned value or the value of the
`panic` that ended the run. -/
structure Exec (E α : Type) where
  trace : List E
  result : Except String α

/-- Return without a call. -/
def Exec.pure {E α : Type} (a : α) : Exec E α := ⟨[], Except.ok a⟩

/-- Sequencing: a panic in the first part ends the run. -/
def Exec.bind {E α β : Type} (m : Exec E α) (f : α → Exec E β) : Exec E β :=
  match m.result with
  | Except.error p => ⟨m.trace, Except.error p⟩
  | Except.ok a => ⟨m.trace ++ (f a).trace, (f a).result⟩

instance {E : Type} : Monad (Exec E) where
  pure := Exec.pure
  bind := Exec.bind

/-- One call of `credOpOptions.panicError(err)`. -/
def callPanicError {TI TC CO L X : Type} (ext : Externals TI TC L X)
    (o : CredentialOpOptions L X) (err : String) : Exec (Call TC CO L X) Unit :=
  ⟨[Call.panicError o err],
    match ext.panicError o err with
    | some v => Except.error v
    | none => Except.ok ()⟩

/-- One call of `callbacks.TokenCredential(u, tc, options)`. -/
def callTokenCredential {TC CO L X T U : Type} (callbacks : newClientCallbacks TC CO T U)
    (u : String) (tc : TC) (options : CO) : Exec (Call TC CO L X) (Option T × Option String) :=
  ⟨[Call.TokenCredential u tc options], Except.ok (callbacks.TokenCredential u tc options)⟩

/-- One call of `callbacks.NoCredential(u, options)`. -/
def callNoCredential {TC CO L X T U : Type} (callbacks : newClientCallbacks TC CO T U)
    (u : String) (options : CO) : Exec (Call TC CO L X) (Option T × Option String) :=
  ⟨[Call.NoCredential u options], Except.ok (callbacks.NoCredential u options)⟩

/-- The text of `fmt.Errorf("invalid state, credential type %v is not supported", t)`. -/
def unsupportedMsg {TI TC L X : Type} (ext : Externals TI TC L X) (t : CredentialType) : String :=
  "invalid state, credential type " ++ ext.fmtCredentialType t ++ " is not supported"

/-- `createClient` of `common/clientFactory.go`.  A nil `credOpOptions` is `none`; an `error`
is its message. -/
def createClient {TI TC CO L X T U : Type} (ext : Externals TI TC L X)
    (callbacks : newClientCallbacks TC CO T U) (u : String) (credInfo : CredentialInfo TI)
    (credOpOptions : Option (CredentialOpOptions L X)) (options : CO) :
    Exec (Call TC CO L X) (Option T × Option String) :=
  let credOpOptions : CredentialOpOptions L X :=
    match credOpOptions with
    | none => { LogError := some ext.glcmInfo, others := ext.zeroOthers }
    | some o => o
  match credInfo.CredentialType with
  | CredentialType.OAuthToken => do
    if ext.IsEmpty credInfo.OAuthTokenInfo then
      callPanicError ext credOpOptions "invalid state, cannot get valid OAuth token information"
    let tcErr := ext.GetTokenCredential credInfo.OAuthTokenInfo
    match tcErr.2 with
    | some e =>
      callPanicError ext credOpOptions
        ("unable to get token credential due to reason (" ++ e ++ ")")
    | none => pure ()
    callTokenCredential callbacks u tcErr.1 options
  | CredentialType.Anonymous =>
    callNoCredential callbacks u options
  | t => do
    callPanicError ext credOpOptions (unsupportedMsg ext t)
    pure (none, some (unsupportedMsg ext t))

/-- `blobservice.ClientOptions{ClientOptions: options}`. -/
structure blobservice.ClientOptions (CO : Type) where
  ClientOptions : CO

/-- `container.ClientOptions{ClientOptions: options}`. -/
structure container.ClientOptions (CO : Type) where
  ClientOptions : CO

/-- `blob.ClientOptions{ClientOptions: options}`. -/
structure blob.ClientOptions (CO : Type) where
  ClientOptions : CO

/-- `blockblob.ClientOptions{ClientOptions: options}`. -/
structure blockblob.ClientOptions (CO : Type) where
  ClientOptions : CO

/-- The eight constructors of the storage SDK that the wrappers hand to `createClient`. -/
structure SDK (TC CO SC CC BC BBC : Type) where
  blobservice_NewClient : String → TC → blobservice.ClientOptions CO → Option SC × Option String
  blobservice_NewClientWithNoCredential :
    String → blobservice.ClientOptions CO → Option SC × Option String
  container_NewClient : String → TC → container.ClientOptions CO → Option CC × Option String
  container_NewClientWithNoCredential :
    String → container.ClientOptions CO → Option CC × Option String
  blob_NewClient : String → TC → blob.ClientOptions CO → Option BC × Option String
  blob_NewClientWithNoCredential : String → blob.ClientOptions CO → Option BC × Option String
  blockblob_NewClient : String → TC → blockblob.ClientOptions CO → Option BBC × Option String
  blockblob_NewClientWithNoCredential :
    String → blockblob.ClientOptions CO → Option BBC × Option String

/-- The callbacks literal of `CreateBlobServiceClient`. -/
def blobServiceCallbacks {TC CO SC CC BC BBC : Type} (sdk : SDK TC CO SC CC BC BBC) (SK : Type) :
    newClientCallbacks TC CO SC SK :=
  { TokenCredential := fun u tc options => sdk.blobservice_NewClient u tc ⟨options⟩
    NoCredential := fun u options => sdk.blobservice_NewClientWithNoCredential u ⟨options⟩ }

/-- The callbacks literal of `CreateContainerClient`. -/
def containerCallbacks {TC CO SC CC BC BBC : Type} (sdk : SDK TC CO SC CC BC BBC) (SK : Type) :
    newClientCallbacks TC CO CC SK :=
  { TokenCredential := fun u tc options => sdk.container_NewClient u tc ⟨options⟩
    NoCredential := fun u options => sdk.container_NewClientWithNoCredential u ⟨options⟩ }

/-- The callbacks literal of `CreateBlobClient`. -/
def blobCallbacks {TC CO SC CC BC BBC : Type} (sdk : SDK TC CO SC CC BC BBC) (SK : Type) :
    newClientCallbacks TC CO BC SK :=
  { TokenCredential := fun u tc options => sdk.blob_NewClient u tc ⟨options⟩
    NoCredential := fun u options => sdk.blob_NewClientWithNoCredential u ⟨options⟩ }

/-- The callbacks literal of `CreateBlockBlobClient`. -/
def blockBlobCallbacks {TC CO SC CC BC BBC : Type} (sdk : SDK TC CO SC CC BC BBC) (SK : Type) :
    newClientCallbacks TC CO BBC SK :=
  { TokenCredential := fun u tc options => sdk.blockblob_NewClient u tc ⟨options⟩
    NoCredential := fun u options => sdk.blockblob_NewClientWithNoCredential u ⟨options⟩ }

/-- `CreateBlobServiceClient`. -/
def CreateBlobServiceClient {TI TC CO L X SC CC BC BBC : Type} (ext : Externals TI TC L X)
    (sdk : SDK TC CO SC CC BC BBC) (SK : Type) (u : String) (credInfo : CredentialInfo TI)
    (credOpOptions : Option (CredentialOpOptions L X)) (options : CO) :
    Exec (Call TC CO L X) (Option SC × Option String) :=
  let callbacks : newClientCallbacks TC CO SC SK :=
    { TokenCredential := fun u tc options => sdk.blobservice_NewClient u tc ⟨options⟩
      NoCredential := fun u options => sdk.blobservice_NewClientWithNoCredential u ⟨options⟩ }
  createClient ext callbacks u credInfo credOpOptions options

/-- `CreateContainerClient`. -/
def CreateContainerClient {TI TC CO L X SC CC BC BBC : Type} (ext : Externals TI TC L X)
    (sdk : SDK TC CO SC CC BC BBC) (SK : Type) (u : String) (credInfo : CredentialInfo TI)
    (credOpOptions : Option (CredentialOpOptions L X)) (options : CO) :
    Exec (Call TC CO L X) (Option CC × Option String) :=
  let callbacks : newClientCallbacks TC CO CC SK :=
    { TokenCredential := fun u tc options => sdk.container_NewClient u tc ⟨options⟩
      NoCredential := fun u options => sdk.container_NewClientWithNoCredential u ⟨options⟩ }
  createClient ext callbacks u credInfo credOpOptions options

/-- `CreateBlobClient`. -/
def CreateBlobClient {TI TC CO L X SC CC BC BBC : Type} (ext : Externals TI TC L X)
    (sdk : SDK TC CO SC CC BC BBC) (SK : Type) (u : String) (credInfo : CredentialInfo TI)
    (credOpOptions : Option (CredentialOpOptions L X)) (options : CO) :
    Exec (Call TC CO L X) (Option BC × Option String) :=
  let callbacks : newClientCallbacks TC CO BC SK :=
    { TokenCredential := fun u tc options => sdk.blob_NewClient u tc ⟨options⟩
      NoCredential := fun u options => sdk.blob_NewClientWithNoCredential u ⟨options⟩ }
  createClient ext callbacks u credInfo credOpOptions options

/-- `CreateBlockBlobClient`. -/
def CreateBlockBlobClient {TI TC CO L X SC CC BC BBC : Type} (ext : Externals TI TC L X)
    (sdk : SDK TC CO SC CC BC BBC) (SK : Type) (u : String) (credInfo : CredentialInfo TI)
    (credOpOptions : Option (CredentialOpOptions L X)) (options : CO) :
    Exec (Call TC CO L X) (Option BBC × Option String) :=
  let callbacks : newClientCallbacks TC CO BBC SK :=
    { TokenCredential := fun u tc options => sdk.blockblob_NewClient u tc ⟨options⟩
      NoCredential := fun u options => sdk.blockblob_NewClientWithNoCredential u ⟨options⟩ }
  createClient ext callbacks u credInfo credOpOptions options

/-- The arm of the switch a run went through, read off the calls it made. -/
inductive Branch where
  | token
  | noCredential
  | error
  deriving DecidableEq, Repr

/-- Whether a call is the token callback. -/
def Call.isToken {TC CO L X : Type} : Call TC CO L X → Bool
  | Call.TokenCredential _ _ _ => true
  | _ => false

/-- Whether a call is the no-credential callback. -/
def Call.isNoCredential {TC CO L X : Type} : Call TC CO L X → Bool
  | Call.NoCredential _ _ => true
  | _ => false

/-- The branch of a run: which constructor callback it reached, if any. -/
def Exec.branch {TC CO L X α : Type} (r : Exec (Call TC CO L X) α) : Branch :=
  if r.trace.any Call.isToken then Branch.token
  else if r.trace.any Call.isNoCredential then Branch.noCredential
  else Branch.error

/-- The error side of a run: the panic value, or the returned `error`. -/
def Exec.failure {E T : Type} (r : Exec E (Option T × Option String)) : Except String (Option String) :=
  match r.result with
  | Except.error p => Except.error p
  | Except.ok v => Except.ok v.2

/-- The client a run returned, if it returned one. -/
def Exec.client {E T : Type} (r : Exec E (Option T × Option String)) : Option T :=
  match r.result with
  | Except.error _ => none
  | Except.ok v => v.1

/-- The option value `createClient` works with: the given one, or the default literal
`CredentialOpOptions{LogError: glcm.Info}`. -/
def effectiveOptions {TI TC L X : Type} (ext : Externals TI TC L X)
    (credOpOptions : Option (CredentialOpOptions L X)) : CredentialOpOptions L X :=
  match credOpOptions with
  | none => { LogError := some ext.glcmInfo, others := ext.zeroOthers }
  | some o => o

/-- How a run for an unsupported credential type ends: with the panic of `panicError`, or,
when that returns, with the returned error. -/
def unsupportedFailure {TI TC L X : Type} (ext : Externals TI TC L X)
    (o : CredentialOpOptions L X) (t : CredentialType) : Except String (Option String) :=
  match ext.panicError o (unsupportedMsg ext t) with
  | some v => Except.error v
  | none => Except.ok (some (unsupportedMsg ext t))

/-- Collaborators to run the definitions on: token info is a number (`0` is empty, `1` cannot
produce a credential), `panicError` panics with the error it is given. -/
def sampleExternals : Externals Nat Nat String Unit :=
  { glcmInfo := "glcm.Info"
    zeroOthers := ()
    IsEmpty := fun ti => ti == 0
    GetTokenCredential := fun ti => (ti + 100, if ti == 1 then some "expired" else none)
    panicError := fun _ err => some err
    fmtCredentialType := fun t =>
      match t with
      | CredentialType.OAuthToken => "OAuthToken"
      | CredentialType.Anonymous => "Anonymous"
      | CredentialType.other _ => "Unknown" }

/-- As `sampleExternals`, with a `panicError` whose handler returns. -/
def lenientExternals : Externals Nat Nat String Unit :=
  { sampleExternals with panicError := fun _ _ => none }

/-- As `sampleExternals`, with options that say whether they carry a `Panic` handler that
returns: `panicError` returns for such options and panics otherwise, as it does for the default
literal, which sets no handler. -/
def handlerExternals : Externals Nat Nat String Bool :=
  { glcmInfo := "glcm.Info"
    zeroOthers := false
    IsEmpty := fun ti => ti == 0
    GetTokenCredential := fun ti => (ti + 100, if ti == 1 then some "expired" else none)
    panicError := fun o err => if o.others then none else some err
    fmtCredentialType := fun t =>
      match t with
      | CredentialType.OAuthToken => "OAuthToken"
      | CredentialType.Anonymous => "Anonymous"
      | CredentialType.other _ => "Unknown" }

/-- Options with a `Panic` handler that returns, for `handlerExternals`. -/
def returningOptions : CredentialOpOptions String Bool :=
  { LogError := none, others := true }

/-- Callbacks to run `createClient` on: the client is a text naming its constructor. -/
def sampleCallbacks : newClientCallbacks Nat Nat String Unit :=
  { TokenCredential := fun u _ _ => (some (u ++ "#token"), none)
    NoCredential := fun u _ => (some (u ++ "#anonymous"), none) }

/-- An SDK to run the wrappers on: each client is a text naming its constructor. -/
def sampleSDK : SDK Nat Nat String String String String :=
  { blobservice_NewClient := fun u _ _ => (some (u ++ "#service/token"), none)
    blobservice_NewClientWithNoCredential := fun u _ => (some (u ++ "#service/anonymous"), none)
    container_NewClient := fun u _ _ => (some (u ++ "#container/token"), none)
    container_NewClientWithNoCredential := fun u _ => (some (u ++ "#container/anonymous"), none)
    blob_NewClient := fun u _ _ => (some (u ++ "#blob/token"), none)
    blob_NewClientWithNoCredential := fun u _ => (some (u ++ "#blob/anonymous"), none)
    blockblob_NewClient := fun u _ _ => (some (u ++ "#blockblob/token"), none)
    blockblob_NewClientWithNoCredential := fun u _ => (some (u ++ "#blockblob/anonymous"), none) }

end common

namespace cmd

/-- The constant `common.AZCOPY_PATH_SEPARATOR_STRING`, as a character. -/
def AZCOPY_PATH_SEPARATOR_CHAR : Char := '/'

/-- The constant `common.AZCOPY_PATH_SEPARATOR_STRING = "/"`. -/
def AZCOPY_PATH_SEPARATOR_STRING : String := "/"

/-- Split a text at every occurrence of a separator character (`strings.Split`). -/
def splitOn (sep : Char) : List Char → List (List Char)
  | [] => [[]]
  | c :: cs =>
    if c = sep then [] :: splitOn sep cs
    else
      match splitOn sep cs with
      | [] => [[c]]
      | h :: t => (c :: h) :: t

/-- Modelled from the spec: the last path segment of a relative path, which a glob pattern
without a directory is matched against ("regardless of depth"). -/
def baseName (path : List Char) : List Char :=
  (splitOn AZCOPY_PATH_SEPARATOR_CHAR path).getLastD []

/-- Modelled from the spec: the texts a `*` may stop at, "any run of characters within a path
segment boundary": it takes any run of characters that holds no path separator. -/
def starTails : List Char → List (List Char)
  | [] => [[]]
  | c :: cs => if c = AZCOPY_PATH_SEPARATOR_CHAR then [c :: cs] else (c :: cs) :: starTails cs

/-- Modelled from the spec: shell-glob matching, case-sensitive, where `*` matches any run of
characters within a path segment and every other character matches itself.  The matcher of the
command is not among the files at hand. -/
def globMatch : List Char → List Char → Bool
  | [], text => text.isEmpty
  | p :: ps, text =>
    if p = '*' then (starTails text).any (globMatch ps)
    else
      match text with
      | [] => false
      | c :: cs => p = c && globMatch ps cs

/-- Modelled from the spec: an exact-name pattern (one without `*`) matches by equality with
the full relative path; a glob pattern that names no directory matches the last path segment,
so `*.pdf` matches a path ending in `.pdf` at any depth; a glob pattern with a path separator is
anchored and matches the whole relative path. -/
def patternMatches (pattern path : String) : Bool :=
  if pattern.toList.contains '*' then
    if pattern.toList.contains AZCOPY_PATH_SEPARATOR_CHAR then
      globMatch pattern.toList path.toList
    else
      globMatch pattern.toList (baseName path.toList)
  else
    pattern = path

/-- Modelled from the spec: the include/exclude pattern strings of the CLI surface, patterns
separated by `;` as in the test input `*.pdf;*.jpeg;exactName`; empty patterns are skipped. -/
def parsePatterns (pattern : String) : List String :=
  ((splitOn ';' pattern.toList).filter (fun p => !p.isEmpty)).map String.mk

/-- Modelled from the spec: the filter-chain policy, "an object is included iff (include-set is
empty OR at least one include predicate matches) AND (no exclude predicate matches)". -/
def shouldInclude (includePatterns excludePatterns : List String) (path : String) : Bool :=
  (includePatterns.isEmpty || includePatterns.any (fun p => patternMatches p path))
    && !excludePatterns.any (fun p => patternMatches p path)


/-- Modelled from the spec: whether a relative path names a direct child of the root, that is,
holds no path separator (the check the non-recursive test makes on each `transfer.Source`). -/
def isDirectChild (path : String) : Bool :=
  !path.toList.contains AZCOPY_PATH_SEPARATOR_CHAR

/-- Modelled from the spec: the rest of `path` below the directory `dir`, when `path` lies
under `dir/`; used for the directories a list-of-files names. -/
def relativeTo (dir path : String) : Option String :=
  if (dir.toList ++ [AZCOPY_PATH_SEPARATOR_CHAR]).isPrefixOf path.toList then
    some (String.mk (path.toList.drop (dir.toList.length + 1)))
  else none

/-- Modelled from the spec: the Enumerator on a container root, "for recursive mode, visits all
descendants …; for non-recursive mode, yields only direct children". -/
def enumerateContainer (recursive : Bool) (objects : List String) : List String :=
  if recursive then objects else objects.filter isDirectChild

/-- Modelled from the spec: one entry of a list-of-files covers the object it names and, as a
directory, what the Enumerator yields below it (all descendants when recursive, direct children
otherwise), as `TestSetPropertiesListOfBlobsAndVirtualDirsForBlobTier` expects. -/
def listCovers (recursive : Bool) (entry path : String) : Bool :=
  entry = path ||
    match relativeTo entry path with
    | some rest => recursive || isDirectChild rest
    | none => false

/-- Modelled from the spec: list-membership of the filter chain, whether some entry of the
list-of-files covers the path. -/
def inListOfFiles (recursive : Bool) (listOfFiles : List String) (path : String) : Bool :=
  listOfFiles.any (fun entry => listCovers recursive entry path)


/-- The type `common.BlockBlobTier`. -/
inductive BlockBlobTier where
  | None
  | Hot
  | Cool
  | Cold
  | Archive
  deriving DecidableEq, Repr

/-- The type `common.PageBlobTier`: `None`, or one of the premium tiers. -/
inductive PageBlobTier where
  | None
  | P (n : Nat)
  deriving DecidableEq, Repr

/-- The type `blob.AccessTier`, a string. -/
abbrev AccessTier := String

/-- The type `common.Metadata`, as the list of its key/value pairs. -/
abbrev Metadata := List (String × String)

/-- The type `common.BlobTags`, as the list of its key/value pairs. -/
abbrev BlobTags := List (String × String)

/-- Modelled from the spec: the tier of the property-change specification.  The access tier
of a block-blob tier is the tier of the same name; `ToAccessTierType` is not among the files at
hand. -/
def BlockBlobTier.ToAccessTierType : BlockBlobTier → AccessTier
  | BlockBlobTier.None => "None"
  | BlockBlobTier.Hot => "Hot"
  | BlockBlobTier.Cool => "Cool"
  | BlockBlobTier.Cold => "Cold"
  | BlockBlobTier.Archive => "Archive"

/-- Modelled from the spec: one `key=value` pair of the metadata string, cut at its first `=`:
the key, and the value when there is an `=`. -/
def cutAtEquals : List Char → List Char × Option (List Char)
  | [] => ([], none)
  | c :: cs =>
    if c = '=' then ([], some cs)
    else ((c :: (cutAtEquals cs).1), (cutAtEquals cs).2)

/-- Modelled from the spec: the metadata string of the CLI surface, `key=value` pairs
separated by `;` as in the test input `abc=def;metadata=value`; the empty string is the empty
map, and a pair without `=` is an error.  `common.StringToMetadata` is not among the files at
hand. -/
def StringToMetadata (metadataString : String) : Except String Metadata :=
  ((splitOn ';' metadataString.toList).filter (fun p => !p.isEmpty)).mapM
    (fun pair =>
      match cutAtEquals pair with
      | (k, some v) => Except.ok (String.mk k, String.mk v)
      | (_, none) => Except.error "metadata names must conform to C# naming rules")

/-- The struct `transferParams` of the test file. -/
structure transferParams where
  blockBlobTier : BlockBlobTier
  pageBlobTier : PageBlobTier
  metadata : String
  blobTags : BlobTags

/-- The method `transferParams.getMetadata`: it panics when the string does not parse. -/
def transferParams.getMetadata (tp : transferParams) : Except String Metadata :=
  match StringToMetadata tp.metadata with
  | Except.error err => Except.error ("unable to form Metadata from string: " ++ err)
  | Except.ok metadataMap => Except.ok metadataMap

/-- Modelled from the spec: the source locator of the CLI surface, as what the URL points at:
a container, or a single blob of it. -/
inductive SourceRoot where
  | container
  | blob (name : String)
  deriving DecidableEq, Repr

/-- Modelled from the spec: the CLI surface, "source/destination locators, recursive flag,
include/exclude pattern strings, list-of-files path, property-change specification (tier /
metadata string / tag map)", with the fields the tests set on the raw input. -/
structure rawCopyCmdArgs where
  src : SourceRoot
  fromTo : String
  recursive : Bool
  includePatterns : String
  excludePatterns : String
  listOfFilesToCopy : Option (List String)
  includeDirectoryStubs : Bool
  blockBlobTier : BlockBlobTier
  pageBlobTier : PageBlobTier
  metadata : String
  blobTags : BlobTags

/-- Modelled from the spec: the raw input the tests start from, with no filter, no
list-of-files, recursion off and the from-to left to be inferred. -/
def getDefaultSetPropertiesRawInput (src : SourceRoot) (params : transferParams) : rawCopyCmdArgs :=
  { src := src
    fromTo := ""
    recursive := false
    includePatterns := ""
    excludePatterns := ""
    listOfFilesToCopy := none
    includeDirectoryStubs := true
    blockBlobTier := params.blockBlobTier
    pageBlobTier := params.pageBlobTier
    metadata := params.metadata
    blobTags := params.blobTags }

/-- Modelled from the spec: the `propertyChanges` value object handed to the dispatcher. -/
structure PropertyChanges where
  BlobTier : AccessTier
  Metadata : Metadata
  BlobTags : BlobTags
  deriving DecidableEq, Repr

/-- The fields of `common.CopyTransfer` that the tests read from the intercepted transfers. -/
structure CopyTransfer where
  Source : String
  BlobTier : AccessTier
  Metadata : Metadata
  BlobTags : BlobTags
  deriving DecidableEq, Repr

/-- Modelled from the spec: the cooked arguments, "parsed upstream and handed to the
Dispatcher". -/
structure CookedArgs where
  recursive : Bool
  includePatterns : List String
  excludePatterns : List String
  listOfFiles : Option (List String)
  propertyChanges : PropertyChanges

/-- Modelled from the spec: parsing of the raw input.  The from-to is inferred when empty and
must otherwise be `BlobNone`; a metadata string that does not parse ends the run. -/
def cook (raw : rawCopyCmdArgs) : Except String CookedArgs :=
  if raw.fromTo = "" ∨ raw.fromTo = "BlobNone" then
    match StringToMetadata raw.metadata with
    | Except.error err => Except.error err
    | Except.ok md =>
      Except.ok
        { recursive := raw.recursive
          includePatterns := parsePatterns raw.includePatterns
          excludePatterns := parsePatterns raw.excludePatterns
          listOfFiles := raw.listOfFilesToCopy
          propertyChanges :=
            { BlobTier := raw.blockBlobTier.ToAccessTierType
              Metadata := md
              BlobTags := raw.blobTags } }
  else
    Except.error "invalid from-to for set-properties"

/-- Modelled from the spec: the enumeration universe of a source root, "list-of-files acts
as a pre-filter restricting the enumeration universe".  `objects` are the relative paths of the
blobs below the root. -/
def enumerate (cooked : CookedArgs) (objects : List String) : List String :=
  match cooked.listOfFiles with
  | none => enumerateContainer cooked.recursive objects
  | some listOfFiles => objects.filter (inListOfFiles cooked.recursive listOfFiles)

/-- Modelled from the spec: `dispatch(descriptor, propertyChanges)`, reduced to the transfer
the interceptor records. -/
def dispatch (propertyChanges : PropertyChanges) (relativePath : String) : CopyTransfer :=
  { Source := relativePath
    BlobTier := propertyChanges.BlobTier
    Metadata := propertyChanges.Metadata
    BlobTags := propertyChanges.BlobTags }

/-- Modelled from the spec: Enumerator, then Filter Chain, then Job Dispatcher, on a list of
enumerated relative paths. -/
def scheduleFrom (cooked : CookedArgs) (enumerated : List String) : List CopyTransfer :=
  (enumerated.filter (shouldInclude cooked.includePatterns cooked.excludePatterns)).map
    (dispatch cooked.propertyChanges)

/-- Modelled from the spec: the transfers scheduled for a source root. -/
def schedule (cooked : CookedArgs) (objects : List String) : List CopyTransfer :=
  scheduleFrom cooked (enumerate cooked objects)

/-- Modelled from the spec: one run of the set-properties command, Enumerator, then Filter
Chain, then Job Dispatcher, "given a source root and a traversal mode".  `objects` are the
relative paths that the storage client lists below the root `raw.src`, the answer of
`listObjects(root, recursive)`; what a client lists below a root is its own answer and is not
computed here. -/
def runSetProperties (raw : rawCopyCmdArgs) (objects : List String) :
    Except String (List CopyTransfer) :=
  match cook raw with
  | Except.error err => Except.error err
  | Except.ok cooked => Except.ok (schedule cooked objects)

/-- The relative source paths of a list of transfers. -/
def sources (transfers : List CopyTransfer) : List String :=
  transfers.map CopyTransfer.Source

/-- The ten rounds of five blobs of the common remote scenario, with a digit for the generated
part of each name. -/
def sampleScenario (pfx : String) : List String :=
  (["0", "1", "2", "3", "4", "5", "6", "7", "8", "9"].map
    (fun d => [pfx ++ "top" ++ d, pfx ++ "sub1/" ++ d, pfx ++ "sub2/" ++ d,
      pfx ++ "sub1/sub3/sub5/" ++ d, pfx ++ "special" ++ d])).flatten

/-- The blobs `blobsToInclude` of the include-and-exclude tests. -/
def blobsToInclude : List String := ["important.pdf", "includeSub/amazing.jpeg"]

/-- The blobs `blobsToExclude` of the include-and-exclude tests. -/
def blobsToExclude : List String :=
  ["sorry.pdf", "exclude/notGood.jpeg", "exactName", "sub/exactName"]

/-- Equality of run results is decidable. -/
instance instDecidableEqExcept {ε α : Type} [DecidableEq ε] [DecidableEq α] :
    DecidableEq (Except ε α)
  | Except.ok a, Except.ok b =>
    if h : a = b then isTrue (by rw [h]) else isFalse (fun h' => h (Except.ok.inj h'))
  | Except.error a, Except.error b =>
    if h : a = b then isTrue (by rw [h]) else isFalse (fun h' => h (Except.error.inj h'))
  | Except.ok _, Except.error _ => isFalse (fun h => Except.noConfusion h)
  | Except.error _, Except.ok _ => isFalse (fun h => Except.noConfusion h)

/-- The transfer parameters of the tier tests. -/
def coolParams : transferParams :=
  { blockBlobTier := BlockBlobTier.Cool
    pageBlobTier := PageBlobTier.None
    metadata := ""
    blobTags := [] }

/-- The transfer parameters of `TestSetPropertiesSingleBlobForBlobTier`. -/
def fullParams : transferParams :=
  { blockBlobTier := BlockBlobTier.Cool
    pageBlobTier := PageBlobTier.None
    metadata := "abc=def;metadata=value"
    blobTags := [("abc", "fgd")] }

/-- The raw input of `TestSetPropertiesWithIncludeAndExcludeFlagForBlobTier`. -/
def includeExcludeRaw : rawCopyCmdArgs :=
  { getDefaultSetPropertiesRawInput SourceRoot.container coolParams with
    recursive := true
    includePatterns := "*.pdf;*.jpeg;exactName"
    excludePatterns := "so*;not*;exactName" }

/-- The property changes that `coolParams` asks for. -/
def coolChanges : PropertyChanges := { BlobTier := "Cool", Metadata := [], BlobTags := [] }

/-- The property changes that `fullParams` asks for. -/
def fullChanges : PropertyChanges :=
  { BlobTier := "Cool"
    Metadata := [("abc", "def"), ("metadata", "value")]
    BlobTags := [("abc", "fgd")] }

/-- The cooked form of `includeExcludeRaw`. -/
def includeExcludeCooked : CookedArgs :=
  { recursive := true
    includePatterns := ["*.pdf", "*.jpeg", "exactName"]
    excludePatterns := ["so*", "not*", "exactName"]
    listOfFiles := none
    propertyChanges := coolChanges }

/-- Cooked arguments without filter and without list-of-files. -/
def unfiltered (recursive : Bool) (pc : PropertyChanges) : CookedArgs :=
  { recursive := recursive
    includePatterns := []
    excludePatterns := []
    listOfFiles := none
    propertyChanges := pc }

/-- Cooked arguments with a list-of-files. -/
def withListOfFiles (recursive : Bool) (inc exc listOfFiles : List String)
    (pc : PropertyChanges) : CookedArgs :=
  { recursive := recursive
    includePatterns := inc
    excludePatterns := exc
    listOfFiles := some listOfFiles
    propertyChanges := pc }

/-- The raw input of `TestSetPropertiesBlobsUnderContainerForBlobTier`, for either setting of
`raw.recursive`. -/
def underContainerRaw (recursive : Bool) : rawCopyCmdArgs :=
  { getDefaultSetPropertiesRawInput SourceRoot.container coolParams with
    recursive := recursive
    includeDirectoryStubs := false }

/-- The raw input of the single-blob tests: the default input for a blob URL, with the from-to
left empty or set by the test. -/
def singleBlobRaw (name : String) (tp : transferParams) (fromTo : String) : rawCopyCmdArgs :=
  { getDefaultSetPropertiesRawInput (SourceRoot.blob name) tp with fromTo := fromTo }

/-- The list-of-files of `TestSetPropertiesListOfBlobsWithIncludeAndExcludeForBlobTier`: the
fifty blobs of the first scenario, the directory, two names that do not exist, and the blobs
to include and to exclude. -/
def sampleListOfFiles : List String :=
  sampleScenario "" ++ ["megadir", "WUTAMIDOING", "DONTKNOW"] ++ blobsToInclude ++ blobsToExclude

/-- The container of that test: both scenarios and the blobs to include and to exclude. -/
def sampleContainer : List String :=
  sampleScenario "" ++ sampleScenario "megadir/" ++ blobsToInclude ++ blobsToExclude

/-- The raw input of that test. -/
def listOfFilesRaw : rawCopyCmdArgs :=
  { includeExcludeRaw with listOfFilesToCopy := some sampleListOfFiles }

end cmd

namespace e2etest

/-- A library whose suffix has the form of `uuid.New().String()`: the 36 bytes of
`123e4567-e89b-12d3-a456-426614174000`. -/
def guidLib : Lib :=
  { ToLower := asciiToLower
    guidSuffix := [49, 50, 51, 101, 52, 53, 54, 55, 45, 101, 56, 57, 98, 45, 49, 50, 100, 51, 45,
      97, 52, 53, 54, 45, 52, 50, 54, 54, 49, 52, 49, 55, 52, 48, 48, 48] }

/-- An asserter whose scenario name is `X`. -/
def shortAsserter : asserter :=
  { CompactScenarioName := [88] }

end e2etest

namespace e2etest

/-- The bytes of an ASCII text. -/
def ascii (s : String) : GoString :=
  s.toList.map (fun c => UInt8.ofNat c.toNat)

/-- `strings.HasPrefix`. -/
def strings.HasPrefix (s pfx : GoString) : Bool :=
  pfx.isPrefixOf s

/-- `strings.HasSuffix`. -/
def strings.HasSuffix (s suffix : GoString) : Bool :=
  suffix.isSuffixOf s

/-- `strings.TrimPrefix`. -/
def strings.TrimPrefix (s pfx : GoString) : GoString :=
  if strings.HasPrefix s pfx then s.drop pfx.length else s

/-- `strings.TrimSuffix`. -/
def strings.TrimSuffix (s suffix : GoString) : GoString :=
  if strings.HasSuffix s suffix then s.take (s.length - suffix.length) else s

/-- The scan of `strings.Index`: the position of the first occurrence of `substr` at or after
position `i`, or `-1`. -/
def strings.indexFrom (substr : GoString) : GoString → Nat → Int
  | [], i => if substr.isEmpty then (i : Int) else -1
  | c :: cs, i =>
    if substr.isPrefixOf (c :: cs) then (i : Int) else strings.indexFrom substr cs (i + 1)

/-- `strings.Index`: the index of the first instance of `substr` in `s`, or `-1`. -/
def strings.Index (s substr : GoString) : Int :=
  strings.indexFrom substr s 0

/-- `strings.Contains`: `Index(s, substr) >= 0`. -/
def strings.Contains (s substr : GoString) : Bool :=
  decide (strings.Index s substr ≥ 0)

/-- The scan of `strings.Replace` for a non-empty `old`: `n` replacements are left (a negative
`n` never runs out), and `skip` bytes of an occurrence just replaced are still to be passed. -/
def strings.replaceFrom (old new : GoString) : Int → Nat → GoString → GoString
  | _, _, [] => []
  | n, skip + 1, _ :: cs => strings.replaceFrom old new n skip cs
  | n, 0, c :: cs =>
    if n ≠ 0 ∧ old.isPrefixOf (c :: cs) = true then
      new ++ strings.replaceFrom old new (n - 1) (old.length - 1) cs
    else
      c :: strings.replaceFrom old new n 0 cs

/-- `strings.Replace(s, old, new, n)` for a non-empty `old`, which is what `getTestName`
passes: the first `n` non-overlapping instances of `old` are replaced, all of them when
`n < 0`. -/
def strings.Replace (s old new : GoString) (n : Int) : GoString :=
  if old = new ∨ n = 0 then s else strings.replaceFrom old new n 0 s

/-- `strings.ReplaceAll`. -/
def strings.ReplaceAll (s old new : GoString) : GoString :=
  strings.Replace s old new (-1)

/-- `path.Base`: the last element of a slash-separated path, trailing slashes removed;
`.` for the empty path and `/` for a path of slashes only. -/
def path.Base (p : GoString) : GoString :=
  if p = [] then [46]
  else
    let stripped := (p.reverse.dropWhile (fun b => b = 47)).reverse
    let last := (stripped.reverse.takeWhile (fun b => b ≠ 47)).reverse
    if last = [] then [47] else last

/-- One `runtime.Frame`: the name of its function (empty when `Func` is nil) and its file. -/
structure Frame where
  FuncName : GoString
  File : GoString

/-- The stack walk of `getTestName`: the file of the first frame whose function name ends in
`"." + testName`, and the empty string when no frame does. -/
def findTestFile (testName : GoString) : List Frame → GoString
  | [] => []
  | frame :: more =>
    if strings.HasSuffix frame.FuncName ([46] ++ testName) then frame.File
    else findTestFile testName more

/-- The closure `removeUnderscores` of `getTestName`. -/
def removeUnderscores (s : GoString) : GoString :=
  strings.Replace s [95] [45] (-1)

/-- The text `fileWords` of `getTestName`: the base name of the file without the prefix `zt_`
and the suffix `_test.go`, its underscores removed. -/
def fileWords (fileName : GoString) : GoString :=
  strings.ReplaceAll
    (strings.TrimSuffix (strings.TrimPrefix (path.Base fileName) (ascii "zt_")) (ascii "_test.go"))
    [95] []

/-- `getTestName` of `e2etest/factory.go`.  `tName` is `t.Name()` and `frames` are the frames
of `runtime.CallersFrames`; the result is `(pseudoSuite, test)`. -/
def getTestName (lib : Lib) (tName : GoString) (frames : List Frame) : GoString × GoString :=
  let fileName := findTestFile tName frames
  let testName := strings.Replace tName (ascii "Test") [] 1
  let uscorePos := strings.Index testName [95]
  if uscorePos ≥ 0 ∧ uscorePos < (testName.length : Int) - 1 then
    let beforeUnderscore := lib.ToLower (testName.take uscorePos.toNat)
    if strings.Contains (fileWords fileName) beforeUnderscore then
      (beforeUnderscore, removeUnderscores (testName.drop (uscorePos.toNat + 1)))
    else
      ([], removeUnderscores testName)
  else
    ([], removeUnderscores testName)

/-- Split a text at every occurrence of a separator byte (`strings.Split` for a one-byte
separator). -/
def splitAt (sep : UInt8) : GoString → List GoString
  | [] => [[]]
  | c :: cs =>
    if c = sep then [] :: splitAt sep cs
    else
      match splitAt sep cs with
      | [] => [[c]]
      | h :: t => (c :: h) :: t

/-- The words of a test file's name, as the convention states them: the underscore-separated
words of the base name after stripping the prefix `zt_` and the suffix `_test.go`. -/
def fileNameWords (fileName : GoString) : List GoString :=
  splitAt 95
    (strings.TrimSuffix (strings.TrimPrefix (path.Base fileName) (ascii "zt_")) (ascii "_test.go"))

/-- The frames of a call from `TestSetProperties_SingleBlob` in `zt_set_properties_test.go`. -/
def sampleFrames : List Frame :=
  [{ FuncName := ascii "github.com/Azure/azure-storage-azcopy/v10/e2etest.getTestName"
     File := ascii "/src/e2etest/factory.go" },
   { FuncName := ascii "github.com/Azure/azure-storage-azcopy/v10/e2etest.TestSetProperties_SingleBlob"
     File := ascii "/src/e2etest/zt_set_properties_test.go" },
   { FuncName := ascii "testing.tRunner"
     File := ascii "/usr/local/go/src/testing/testing.go" }]

/-- The frames of a call from a test `TestProp_SingleBlob` in `zt_set_properties_test.go`. -/
def partWordFrames : List Frame :=
  [{ FuncName := ascii "github.com/Azure/azure-storage-azcopy/v10/e2etest.getTestName"
     File := ascii "/src/e2etest/factory.go" },
   { FuncName := ascii "github.com/Azure/azure-storage-azcopy/v10/e2etest.TestProp_SingleBlob"
     File := ascii "/src/e2etest/zt_set_properties_test.go" },
   { FuncName := ascii "testing.tRunner"
     File := ascii "/usr/local/go/src/testing/testing.go" }]

end e2etest

namespace engine

/-- Modelled from the spec: the status of a ChunkJob, "`Queued → Active → {Completed |
Failed-Retryable → Queued | Failed-Terminal}`".  Failed-Retryable is passed through on the way
back to `Queued`, so it is no resting status. -/
inductive ChunkStatus where
  | Queued
  | Active
  | Completed
  | FailedTerminal
  deriving DecidableEq, Repr

/-- Modelled from the spec: the status of a TransferJob, "enum: Queued, Active, Completed,
Failed, Cancelled". -/
inductive JobStatus where
  | Queued
  | Active
  | Completed
  | Failed
  | Cancelled
  deriving DecidableEq, Repr

/-- Modelled from the spec: what a worker reports for one attempt: success, a retryable
failure (timeout, throttling, transient 5xx) or a non-retryable failure (authorization,
not-found, malformed request). -/
inductive Outcome where
  | Completed
  | FailedRetryable
  | FailedNonRetryable
  deriving DecidableEq, Repr

/-- Modelled from the spec: a ChunkJob, "parent job ID (back-reference, not ownership),
byte-range offset/length, attempt count, status". -/
structure ChunkJob where
  parent : Nat
  offset : Nat
  length : Nat
  attempts : Nat
  status : ChunkStatus
  deriving DecidableEq, Repr

/-- Modelled from the spec: a TransferJob, reduced to its ID, the size of its object, its
status and its ChunkJobs. -/
structure TransferJob where
  id : Nat
  size : Nat
  status : JobStatus
  chunks : List ChunkJob
  deriving DecidableEq, Repr

/-- Modelled from the spec: the configurable chunk-size threshold, which is also the fixed
size of a chunk, and the maximum attempt count. -/
structure Config where
  chunkSize : Nat
  maxAttempts : Nat
  deriving DecidableEq, Repr

/-- Modelled from the spec: the error kinds of the taxonomy that the dispatcher and the
tracker raise. -/
inductive EngineError where
  | DispatchError
  | UnknownChunk
  deriving DecidableEq, Repr

/-- Modelled from the spec: the partition of `remaining` bytes from `offset` on into chunks
of `chunkSize` bytes, "last chunk may be shorter"; what is at or below the threshold is a
single chunk.  `fuel` bounds the number of full chunks. -/
def chunksFrom (chunkSize parent : Nat) : Nat → Nat → Nat → List ChunkJob
  | 0, offset, remaining =>
    [{ parent := parent, offset := offset, length := remaining, attempts := 0,
       status := ChunkStatus.Queued }]
  | fuel + 1, offset, remaining =>
    if remaining ≤ chunkSize then
      [{ parent := parent, offset := offset, length := remaining, attempts := 0,
         status := ChunkStatus.Queued }]
    else
      { parent := parent, offset := offset, length := chunkSize, attempts := 0,
        status := ChunkStatus.Queued }
        :: chunksFrom chunkSize parent fuel (offset + chunkSize) (remaining - chunkSize)

/-- Modelled from the spec: the chunking of `dispatch(descriptor, propertyChanges)`: "for
objects at or below a configurable chunk-size threshold, produces a single ChunkJob covering
the whole object. For larger objects, partitions into fixed-size chunks".  A chunk size of
zero is the DispatchError "invalid range". -/
def dispatchChunks (cfg : Config) (parent size : Nat) : Except EngineError (List ChunkJob) :=
  if cfg.chunkSize = 0 then Except.error EngineError.DispatchError
  else Except.ok (chunksFrom cfg.chunkSize parent size 0 size)

/-- Modelled from the spec: "chunks are contiguous": each chunk starts where the one before
it ends, the first one at `offset`. -/
def contiguousFrom : Nat → List ChunkJob → Prop
  | _, [] => True
  | offset, c :: cs => c.offset = offset ∧ contiguousFrom (offset + c.length) cs

/-- The sum of the chunk lengths. -/
def totalLength (chunks : List ChunkJob) : Nat :=
  (chunks.map ChunkJob.length).sum

end engine

namespace engine

/-- Modelled from the spec: the terminal statuses of a ChunkJob, Completed and
Failed-Terminal. -/
def ChunkStatus.isTerminal : ChunkStatus → Bool
  | ChunkStatus.Completed => true
  | ChunkStatus.FailedTerminal => true
  | _ => false

/-- Modelled from the spec: the terminal outcomes, success and a non-retryable failure. -/
def Outcome.isTerminal : Outcome → Bool
  | Outcome.Completed => true
  | Outcome.FailedNonRetryable => true
  | Outcome.FailedRetryable => false

/-- Modelled from the spec: a worker pulls a chunk, `Queued → Active`. -/
def ChunkJob.start (c : ChunkJob) : ChunkJob :=
  if c.status = ChunkStatus.Queued then { c with status := ChunkStatus.Active } else c

/-- Modelled from the spec: the effect of one reported outcome on a chunk.  A terminal chunk
stays as it is.  Otherwise the attempt is counted; success completes the chunk; a retryable
failure re-queues it "up to a maximum attempt count; beyond that it becomes Failed-Terminal";
a non-retryable failure makes it Failed-Terminal at once. -/
def ChunkJob.record (maxAttempts : Nat) (c : ChunkJob) (o : Outcome) : ChunkJob :=
  if c.status.isTerminal then c
  else
    match o with
    | Outcome.Completed =>
      { c with attempts := c.attempts + 1, status := ChunkStatus.Completed }
    | Outcome.FailedNonRetryable =>
      { c with attempts := c.attempts + 1, status := ChunkStatus.FailedTerminal }
    | Outcome.FailedRetryable =>
      if c.attempts + 1 < maxAttempts then
        { c with attempts := c.attempts + 1, status := ChunkStatus.Queued }
      else
        { c with attempts := c.attempts + 1, status := ChunkStatus.FailedTerminal }

/-- Modelled from the spec: one attempt of the scheduler on a chunk: a worker pulls it and
reports the outcome. -/
def attempt (maxAttempts : Nat) (c : ChunkJob) (o : Outcome) : ChunkJob :=
  (c.start).record maxAttempts o

/-- Modelled from the spec: the scheduler working on one chunk, one attempt per outcome. -/
def runAttempts (maxAttempts : Nat) (outcomes : List Outcome) (c : ChunkJob) : ChunkJob :=
  outcomes.foldl (attempt maxAttempts) c

/-- Modelled from the spec: the status of a job as the aggregate of its chunks: Failed when
a chunk is Failed-Terminal, else Completed when all chunks are Completed, else Queued when all
are Queued, else Active. -/
def aggregate (chunks : List ChunkJob) : JobStatus :=
  if chunks.any (fun c => c.status = ChunkStatus.FailedTerminal) then JobStatus.Failed
  else if chunks.all (fun c => c.status = ChunkStatus.Completed) then JobStatus.Completed
  else if chunks.all (fun c => c.status = ChunkStatus.Queued) then JobStatus.Queued
  else JobStatus.Active

/-- Modelled from the spec: the identity of a chunk: its job and its place among the chunks
of that job. -/
structure ChunkID where
  job : Nat
  index : Nat
  deriving DecidableEq, Repr

/-- Modelled from the spec: the Job State Tracker, the "authoritative record of per-job and
per-chunk status".  A job's ID is its place in the table. -/
structure Tracker where
  jobs : List TransferJob
  deriving DecidableEq, Repr

/-- Modelled from the spec: replace one chunk of a job and update "parent job aggregate
status per the invariant in §3". -/
def Tracker.updateChunk (t : Tracker) (cid : ChunkID) (job : TransferJob) (c : ChunkJob) :
    Tracker :=
  { jobs := t.jobs.set cid.job
      { job with
        chunks := job.chunks.set cid.index c
        status := aggregate (job.chunks.set cid.index c) } }

/-- Modelled from the spec: `recordOutcome(chunkID, outcome)`, "idempotent per chunk (a
duplicate report for an already-terminal chunk is a no-op, not an error)". -/
def recordOutcome (cfg : Config) (t : Tracker) (cid : ChunkID) (o : Outcome) :
    Except EngineError Tracker :=
  match t.jobs[cid.job]? with
  | none => Except.error EngineError.UnknownChunk
  | some job =>
    match job.chunks[cid.index]? with
    | none => Except.error EngineError.UnknownChunk
    | some c =>
      if c.status.isTerminal then Except.ok t
      else Except.ok (t.updateChunk cid job (c.record cfg.maxAttempts o))

/-- Modelled from the spec: a worker pulls a chunk of the table. -/
def startChunk (t : Tracker) (cid : ChunkID) : Except EngineError Tracker :=
  match t.jobs[cid.job]? with
  | none => Except.error EngineError.UnknownChunk
  | some job =>
    match job.chunks[cid.index]? with
    | none => Except.error EngineError.UnknownChunk
    | some c => Except.ok (t.updateChunk cid job c.start)

/-- Modelled from the spec: the dispatcher submits the job of an object of `size` bytes; the
job and its chunks start as Queued. -/
def submit (cfg : Config) (t : Tracker) (size : Nat) : Except EngineError Tracker :=
  match dispatchChunks cfg t.jobs.length size with
  | Except.error e => Except.error e
  | Except.ok chunks =>
    Except.ok
      { jobs := t.jobs ++ [{ id := t.jobs.length, size := size, status := JobStatus.Queued,
                             chunks := chunks }] }

/-- Modelled from the spec: the tracker states of a run: the empty table, and what submitting
a job, pulling a chunk and recording an outcome make of a reachable state. -/
inductive Reachable (cfg : Config) : Tracker → Prop where
  | init : Reachable cfg { jobs := [] }
  | submit {t t' : Tracker} (size : Nat) :
      Reachable cfg t → engine.submit cfg t size = Except.ok t' → Reachable cfg t'
  | start {t t' : Tracker} (cid : ChunkID) :
      Reachable cfg t → startChunk t cid = Except.ok t' → Reachable cfg t'
  | record {t t' : Tracker} (cid : ChunkID) (o : Outcome) :
      Reachable cfg t → recordOutcome cfg t cid o = Except.ok t' → Reachable cfg t'

/-- Modelled from the spec: the invariant of §3 on one job: "a TransferJob's status is
Completed iff all its ChunkJobs are Completed; a TransferJob's status is Failed iff at least one
ChunkJob exhausted retries", a chunk that exhausted its retries being one that is
Failed-Terminal. -/
def JobInvariant (job : TransferJob) : Prop :=
  (job.status = JobStatus.Completed ↔ ∀ c ∈ job.chunks, c.status = ChunkStatus.Completed)
    ∧ (job.status = JobStatus.Failed
        ↔ ∃ c ∈ job.chunks, c.status = ChunkStatus.FailedTerminal)

/-- A chunk as the dispatcher makes it: no attempt yet, Queued. -/
def freshChunk (parent offset length : Nat) : ChunkJob :=
  { parent := parent, offset := offset, length := length, attempts := 0,
    status := ChunkStatus.Queued }

/-- A configuration to run the definitions on: chunks of 4 bytes, 3 attempts. -/
def sampleConfig : Config :=
  { chunkSize := 4, maxAttempts := 3 }

/-- The table after an object of 6 bytes was submitted. -/
def sampleSubmitted : Tracker :=
  { jobs := [{ id := 0, size := 6, status := JobStatus.Queued,
               chunks := [freshChunk 0 0 4, freshChunk 0 4 2] }] }

/-- The table after the first chunk of that job completed. -/
def sampleHalfDone : Tracker :=
  { jobs := [{ id := 0, size := 6, status := JobStatus.Active,
               chunks := [{ freshChunk 0 0 4 with attempts := 1, status := ChunkStatus.Completed },
                          freshChunk 0 4 2] }] }

end engine

namespace cmd

/-- A Go `map[string]V`, as the list of its entries.  A map holds each key once; its length is
the number of its entries. -/
abbrev GoMap (V : Type) := List (String × V)

/-- The keys of a map. -/
def GoMap.keys {V : Type} (m : GoMap V) : List String :=
  m.map Prod.fst

/-- The comma-ok form of `m[k]`: the value at `k` when the key is present. -/
def GoMap.get? {V : Type} (m : GoMap V) (k : String) : Option V :=
  (m.find? (fun e => e.1 = k)).map Prod.snd

/-- The plain form of `m[k]`: the value at `k`, or the zero value of the value type. -/
def GoMap.get {V : Type} (m : GoMap V) (k : String) (zero : V) : V :=
  (m.get? k).getD zero

/-- The builtin `delete(m, k)`. -/
def GoMap.delete {V : Type} (m : GoMap V) (k : String) : GoMap V :=
  m.filter (fun e => e.1 ≠ k)

/-- Two maps are equal: the same keys, and the same value at every key. -/
def GoMap.Equal {V : Type} (a b : GoMap V) : Prop :=
  ∀ k : String, a.get? k = b.get? k

/-- `c.Assert(obtained, chk.Equals, expected)`: the test goes on when the check holds and
stops, failed, when it does not. -/
def Assert (holds : Bool) : Except String Unit :=
  if holds then Except.ok () else Except.error "assertion failed"

/-- A `for … range` loop whose body only checks: it stops at the first entry whose check
fails.  The order of a map's entries is not fixed; whether the loop passes does not depend on
it. -/
def rangeCheck {α : Type} (check : α → Except String Unit) : List α → Except String Unit
  | [] => Except.ok ()
  | x :: xs =>
    match check x with
    | Except.error e => Except.error e
    | Except.ok _ => rangeCheck check xs

/-- `*p` for a `*string`: a nil pointer panics. -/
def deref (p : Option String) : Except String String :=
  match p with
  | none => Except.error "invalid memory address or nil pointer dereference"
  | some s => Except.ok s

/-- `checkTagsEqual` of the test file. -/
def checkTagsEqual (mapA mapB : GoMap String) : Except String Unit :=
  match Assert (decide (mapA.length = mapB.length)) with
  | Except.error e => Except.error e
  | Except.ok _ => rangeCheck (fun kv => Assert (decide (mapB.get kv.1 "" = kv.2))) mapA

/-- `checkMetadataEqual` of the test file, on maps of `*string`: `none` is the nil pointer,
which `mapB[k]` also yields for a missing key. -/
def checkMetadataEqual (mapA mapB : GoMap (Option String)) : Except String Unit :=
  match Assert (decide (mapA.length = mapB.length)) with
  | Except.error e => Except.error e
  | Except.ok _ =>
    rangeCheck
      (fun kv =>
        match deref (mapB.get kv.1 none) with
        | Except.error e => Except.error e
        | Except.ok b =>
          match deref kv.2 with
          | Except.error e => Except.error e
          | Except.ok a => Assert (decide (b = a)))
      mapA

/-- The type `interceptor` of the tests, reduced to the transfers it recorded. -/
structure interceptor where
  transfers : List CopyTransfer

/-- What `validateSetPropertiesTransfersAreScheduled` calls without defining:
`url.PathUnescape`, with the error it returns next to the text, and
`scenarioHelper.convertListToMap`. -/
structure TestLib where
  PathUnescape : String → String × Option String
  convertListToMap : List String → GoMap Int

/-- A `common.Metadata` as the map of pointers it is. -/
def Metadata.pointers (m : Metadata) : GoMap (Option String) :=
  m.map (fun e => (e.1, some e.2))

/-- The path that the loop of `validateSetPropertiesTransfersAreScheduled` looks up for a
transfer: its source, path-unescaped when `isSrcEncoded` (the error of `PathUnescape` is
dropped). -/
def lookedUpSource (lib : TestLib) (isSrcEncoded : Bool) (transfer : CopyTransfer) : String :=
  if isSrcEncoded then (lib.PathUnescape transfer.Source).1 else transfer.Source

/-- The loop of `validateSetPropertiesTransfersAreScheduled` over the recorded transfers. -/
def validateTransfers (lib : TestLib) (isSrcEncoded : Bool) (tp : transferParams) :
    List CopyTransfer → GoMap Int → Except String Unit
  | [], _ => Except.ok ()
  | transfer :: rest, lookupMap =>
    match Assert (decide (transfer.BlobTier = tp.blockBlobTier.ToAccessTierType)) with
    | Except.error e => Except.error e
    | Except.ok _ =>
      match tp.getMetadata with
      | Except.error e => Except.error e
      | Except.ok md =>
        match checkMetadataEqual transfer.Metadata.pointers md.pointers with
        | Except.error e => Except.error e
        | Except.ok _ =>
          match checkTagsEqual transfer.BlobTags tp.blobTags with
          | Except.error e => Except.error e
          | Except.ok _ =>
            match Assert (lookupMap.get? (lookedUpSource lib isSrcEncoded transfer)).isSome with
            | Except.error e => Except.error e
            | Except.ok _ =>
              validateTransfers lib isSrcEncoded tp rest
                (lookupMap.delete (lookedUpSource lib isSrcEncoded transfer))

/-- `validateSetPropertiesTransfersAreScheduled` of the test file. -/
def validateSetPropertiesTransfersAreScheduled (lib : TestLib) (isSrcEncoded : Bool)
    (expectedTransfers : List String) (tp : transferParams) (mockedRPC : interceptor) :
    Except String Unit :=
  match Assert (decide (mockedRPC.transfers.length = expectedTransfers.length)) with
  | Except.error e => Except.error e
  | Except.ok _ =>
    validateTransfers lib isSrcEncoded tp mockedRPC.transfers
      (lib.convertListToMap expectedTransfers)

/-- A library to run the validation on: `PathUnescape` leaves a text without `%` as it is,
and `convertListToMap` maps each listed path to `0`. -/
def sampleTestLib : TestLib :=
  { PathUnescape := fun s => (s, none)
    convertListToMap := fun l => l.dedup.map (fun p => (p, 0)) }

end cmd

namespace cmd

/-- What `generateCommonRemoteScenarioForBlobWithAccessTier` uses without defining: the table
`specialNames`, and `createNewBlockBlobWithAccessTier`, which uploads a blob whose name begins
with the given prefix to the container (the state `W`) and returns that name, or stops the
test when the upload fails. -/
structure ScenarioEnv (W : Type) where
  specialNames : List String
  createNewBlockBlobWithAccessTier :
    W → String → Option AccessTier → Except String (W × String)

/-- The index expression `s[i]` on a slice: out of range, it panics. -/
def indexSlice (s : List String) (i : Nat) : Except String String :=
  match s[i]? with
  | some v => Except.ok v
  | none => Except.error "index out of range"

/-- The assignment `s[i] = v` on a slice: out of range, it panics. -/
def assignSlice (s : List String) (i : Nat) (v : String) : Except String (List String) :=
  if i < s.length then Except.ok (s.set i v) else Except.error "index out of range"

/-- One round of the loop of `generateCommonRemoteScenarioForBlobWithAccessTier`: five blobs
are created, then their names are stored in the slots `5*i` to `5*i+4`. -/
def scenarioRound {W : Type} (env : ScenarioEnv W) (pfx : String)
    (accessTier : Option AccessTier) (i : Nat) (st : W × List String) :
    Except String (W × List String) := do
  let r1 ← env.createNewBlockBlobWithAccessTier st.1 (pfx ++ "top") accessTier
  let r2 ← env.createNewBlockBlobWithAccessTier r1.1 (pfx ++ "sub1/") accessTier
  let r3 ← env.createNewBlockBlobWithAccessTier r2.1 (pfx ++ "sub2/") accessTier
  let r4 ← env.createNewBlockBlobWithAccessTier r3.1 (pfx ++ "sub1/sub3/sub5/") accessTier
  let special ← indexSlice env.specialNames i
  let r5 ← env.createNewBlockBlobWithAccessTier r4.1 (pfx ++ special) accessTier
  let l1 ← assignSlice st.2 (5 * i) r1.2
  let l2 ← assignSlice l1 (5 * i + 1) r2.2
  let l3 ← assignSlice l2 (5 * i + 2) r3.2
  let l4 ← assignSlice l3 (5 * i + 3) r4.2
  let l5 ← assignSlice l4 (5 * i + 4) r5.2
  pure (r5.1, l5)

/-- The loop `for i := 0; i < 10; i++`, with `n` rounds left before round `i`. -/
def scenarioLoop {W : Type} (env : ScenarioEnv W) (pfx : String)
    (accessTier : Option AccessTier) : Nat → Nat → W × List String →
    Except String (W × List String)
  | 0, _, st => Except.ok st
  | n + 1, i, st =>
    match scenarioRound env pfx accessTier i st with
    | Except.error e => Except.error e
    | Except.ok st' => scenarioLoop env pfx accessTier n (i + 1) st'

/-- `generateCommonRemoteScenarioForBlobWithAccessTier` of the test file: the container after
the uploads, and `blobList`.  The closing `time.Sleep` changes neither. -/
def generateCommonRemoteScenarioForBlobWithAccessTier {W : Type} (env : ScenarioEnv W) (cc : W)
    (pfx : String) (accessTier : Option AccessTier) : Except String (W × List String) :=
  scenarioLoop env pfx accessTier 10 0 (cc, List.replicate 50 "")

/-- The five kinds of blob of one round, as the prefixes handed to
`createNewBlockBlobWithAccessTier`: top, `sub1/`, `sub2/`, `sub1/sub3/sub5/` and the special
name of the round. -/
def roundPrefixes (pfx special : String) : List String :=
  [pfx ++ "top", pfx ++ "sub1/", pfx ++ "sub2/", pfx ++ "sub1/sub3/sub5/", pfx ++ special]

/-- The prefixes of the rounds for the given special names, round after round. -/
def roundsPrefixes (pfx : String) (specials : List String) : List String :=
  (specials.map (roundPrefixes pfx)).flatten

/-- The prefixes of the fifty blobs in slot order: slot `5*i+j` belongs to kind `j` of round
`i`. -/
def scenarioPrefixes (pfx : String) (specialNames : List String) : List String :=
  roundsPrefixes pfx (specialNames.take 10)

/-- The blobs created one after the other for a list of prefixes: the container afterwards
and the names, in the order of the prefixes. -/
def createAll {W : Type} (env : ScenarioEnv W) (accessTier : Option AccessTier) :
    W → List String → Except String (W × List String)
  | cc, [] => Except.ok (cc, [])
  | cc, p :: ps =>
    match env.createNewBlockBlobWithAccessTier cc p accessTier with
    | Except.error e => Except.error e
    | Except.ok r =>
      match createAll env accessTier r.1 ps with
      | Except.error e => Except.error e
      | Except.ok rs => Except.ok (rs.1, r.2 :: rs.2)

/-- An environment to run the scenario on: the container is the list of the blobs uploaded so
far, a new blob is named by its prefix and the number of blobs before it, and there are ten
special names. -/
def sampleScenarioEnv : ScenarioEnv (List String) :=
  { specialNames := ["s0", "s1", "s2", "s3", "s4", "s5", "s6", "s7", "s8", "s9"]
    createNewBlockBlobWithAccessTier := fun cc p _ =>
      Except.ok (cc ++ [p ++ String.mk (List.replicate cc.length '+')],
        p ++ String.mk (List.replicate cc.length '+')) }

end cmd

namespace e2etest

/-- C9: with `maxLen = 0`, `generateName` returns exactly
`prefix + "-" + lowercase(scenario name) + suffix`, nothing truncated, for every prefix and
scenario name, and `generateBlobName` is this with the prefix `"blob"`. -/
theorem generateName_zero_maxLen (lib : Lib) (c : asserter) (pfx : GoString) :
    generateName lib c pfx 0
        = Except.ok (pfx ++ dash ++ lib.ToLower c.CompactScenarioName ++ lib.guidSuffix)
      ∧ generateBlobName lib c
        = Except.ok (blobPrefix ++ dash ++ lib.ToLower c.CompactScenarioName ++ lib.guidSuffix)
      ∧ generateBlobName lib c = generateName lib c blobPrefix 0 := by
  refine ⟨?_, ?_, rfl⟩ <;> simp [generateBlobName, generateName, textualPortion]

/-- C10: for every `maxLen > 0` for which `generateName` returns, the result ends with the whole
suffix, its length is `min(len(prefix + "-" + lowercase(name)), maxLen - len(suffix)) + len(suffix)`,
and that is at most `maxLen`. -/
theorem generateName_length_bound (lib : Lib) (c : asserter) (pfx : GoString) (maxLen : Int)
    (r : GoString) (hpos : maxLen > 0) (hret : generateName lib c pfx maxLen = Except.ok r) :
    lib.guidSuffix <:+ r
      ∧ (r.length : Int)
          = min ((pfx ++ dash ++ lib.ToLower c.CompactScenarioName).length : Int)
              (maxLen - (lib.guidSuffix.length : Int)) + (lib.guidSuffix.length : Int)
      ∧ (r.length : Int) ≤ maxLen := by
  unfold generateName at hret
  simp only [hpos, if_true, textualPortion] at hret
  split at hret
  · cases hret
  · rename_i hge
    simp only [Except.ok.injEq] at hret
    subst hret
    split
    · rename_i hgt
      refine ⟨List.suffix_append _ _, ?_, ?_⟩
      · simp only [List.length_append, List.length_take]
        push_cast
        omega
      · simp only [List.length_append, List.length_take]
        push_cast
        omega
    · rename_i hle
      refine ⟨List.suffix_append _ _, ?_, ?_⟩
      · simp only [List.length_append] at hle ⊢
        push_cast at hle ⊢
        omega
      · simp only [List.length_append] at hle ⊢
        push_cast at hle ⊢
        omega

/-- Witness of C10: prefix `ab`, scenario `CD`, suffix `xyz`, `maxLen = 7`: the text `ab-cd` is
cut to `ab-c` and the name is `ab-cxyz`, seven bytes long. -/
theorem generateName_length_bound_witness :
    sampleLib.guidSuffix <:+ [97, 98, 45, 99, 120, 121, 122]
      ∧ (([97, 98, 45, 99, 120, 121, 122] : GoString).length : Int)
          = min (([97, 98] ++ dash ++ sampleLib.ToLower sampleAsserter.CompactScenarioName).length : Int)
              (7 - (sampleLib.guidSuffix.length : Int)) + (sampleLib.guidSuffix.length : Int)
      ∧ (([97, 98, 45, 99, 120, 121, 122] : GoString).length : Int) ≤ 7 :=
  generateName_length_bound sampleLib sampleAsserter [97, 98] 7 [97, 98, 45, 99, 120, 121, 122]
    (by decide) (by decide)

end e2etest

namespace common

section lemmas

variable {TI TC CO L X T U : Type}

theorem Exec.bind_eq {E α β : Type} (m : Exec E α) (f : α → Exec E β) :
    (m >>= f) = Exec.bind m f := rfl

theorem Exec.pure_eq {E α : Type} (a : α) : (Pure.pure a : Exec E α) = Exec.pure a := rfl

theorem createClient_anonymous (ext : Externals TI TC L X)
    (callbacks : newClientCallbacks TC CO T U) (u : String) (ti : TI)
    (credOpOptions : Option (CredentialOpOptions L X)) (options : CO) :
    createClient ext callbacks u ⟨CredentialType.Anonymous, ti⟩ credOpOptions options
      = ⟨[Call.NoCredential u options], Except.ok (callbacks.NoCredential u options)⟩ := rfl

theorem createClient_other (ext : Externals TI TC L X)
    (callbacks : newClientCallbacks TC CO T U) (u : String) (ti : TI) (code : Nat)
    (credOpOptions : Option (CredentialOpOptions L X)) (options : CO) :
    createClient ext callbacks u ⟨CredentialType.other code, ti⟩ credOpOptions options
      = ⟨[Call.panicError (effectiveOptions ext credOpOptions)
            (unsupportedMsg ext (CredentialType.other code))],
          match ext.panicError (effectiveOptions ext credOpOptions)
              (unsupportedMsg ext (CredentialType.other code)) with
          | some v => Except.error v
          | none => Except.ok (none, some (unsupportedMsg ext (CredentialType.other code)))⟩ := by
  simp only [createClient, Exec.bind_eq, Exec.pure_eq, Exec.bind, Exec.pure, callPanicError,
    effectiveOptions]
  cases ext.panicError _ _ <;> simp

theorem createClient_trace_callbacks {T' U' : Type} (ext : Externals TI TC L X)
    (cb : newClientCallbacks TC CO T U) (cb' : newClientCallbacks TC CO T' U') (u : String)
    (credInfo : CredentialInfo TI) (credOpOptions : Option (CredentialOpOptions L X))
    (options : CO) :
    (createClient ext cb u credInfo credOpOptions options).trace
      = (createClient ext cb' u credInfo credOpOptions options).trace := by
  obtain ⟨t, ti⟩ := credInfo
  cases t with
  | Anonymous => rfl
  | other code => rw [createClient_other, createClient_other]
  | OAuthToken =>
    simp only [createClient, Exec.bind_eq, Exec.pure_eq, Exec.bind, Exec.pure, callPanicError,
      callTokenCredential]
    cases ext.IsEmpty ti <;> cases (ext.GetTokenCredential ti).2 <;> simp <;>
      repeat (first | rfl | split)

end lemmas

/-- C7: `createClient` builds the client with the credential kind of `credInfo`.  For type
`Anonymous` the run is the single call `callbacks.NoCredential(u, options)` and returns its
result; for type `OAuthToken` with non-empty token info whose `GetTokenCredential` succeeds with
`tc` the run is the single call `callbacks.TokenCredential(u, tc, options)` and returns its
result.  Neither run calls the other callback, and `u` and `options` arrive unchanged. -/
theorem createClient_credential_kind {TI TC CO L X T U : Type} (ext : Externals TI TC L X)
    (callbacks : newClientCallbacks TC CO T U) (u : String) (credInfo : CredentialInfo TI)
    (credOpOptions : Option (CredentialOpOptions L X)) (options : CO) :
    (credInfo.CredentialType = CredentialType.Anonymous →
        createClient ext callbacks u credInfo credOpOptions options
          = ⟨[Call.NoCredential u options], Except.ok (callbacks.NoCredential u options)⟩)
      ∧ (∀ tc : TC, credInfo.CredentialType = CredentialType.OAuthToken →
          ext.IsEmpty credInfo.OAuthTokenInfo = false →
          ext.GetTokenCredential credInfo.OAuthTokenInfo = (tc, none) →
          createClient ext callbacks u credInfo credOpOptions options
            = ⟨[Call.TokenCredential u tc options],
                Except.ok (callbacks.TokenCredential u tc options)⟩) := by
  obtain ⟨t, ti⟩ := credInfo
  refine ⟨?_, ?_⟩
  · intro h
    simp only at h
    subst h
    rfl
  · intro tc h hne hget
    simp only at h hne hget
    subst h
    simp [createClient, Exec.bind_eq, Exec.pure_eq, Exec.bind, Exec.pure, callTokenCredential,
      hne, hget]

/-- Witness of C7 on `sampleExternals`: an anonymous and a token run for `"https://a/c"`. -/
theorem createClient_credential_kind_witness :
    createClient sampleExternals sampleCallbacks "https://a/c" ⟨CredentialType.Anonymous, 0⟩ none 7
        = ⟨[Call.NoCredential "https://a/c" 7],
            Except.ok (some ("https://a/c" ++ "#anonymous"), none)⟩
      ∧ createClient sampleExternals sampleCallbacks "https://a/c" ⟨CredentialType.OAuthToken, 5⟩
          none 7
        = ⟨[Call.TokenCredential "https://a/c" 105 7],
            Except.ok (some ("https://a/c" ++ "#token"), none)⟩ :=
  ⟨(createClient_credential_kind sampleExternals sampleCallbacks "https://a/c"
      ⟨CredentialType.Anonymous, 0⟩ none 7).1 rfl,
    (createClient_credential_kind sampleExternals sampleCallbacks "https://a/c"
      ⟨CredentialType.OAuthToken, 5⟩ none 7).2 105 rfl rfl rfl⟩

/-- C8: client-creation error handling lives in `createClient` alone.  Each of the four
`Create…Client` functions is `createClient` applied to its own pair of constructors; for every
`credInfo` and `credOpOptions` the four make the same calls and so take the same branch; and for
an unsupported credential type each of them returns no client and fails with one and the same
error, the panic of `panicError` or, when that returns, the returned error. -/
theorem create_clients_share_createClient {TI TC CO L X SC CC BC BBC : Type}
    (ext : Externals TI TC L X) (sdk : SDK TC CO SC CC BC BBC) (SK : Type) (u : String)
    (credInfo : CredentialInfo TI) (credOpOptions : Option (CredentialOpOptions L X))
    (options : CO) :
    (CreateBlobServiceClient ext sdk SK u credInfo credOpOptions options
        = createClient ext (blobServiceCallbacks sdk SK) u credInfo credOpOptions options
      ∧ CreateContainerClient ext sdk SK u credInfo credOpOptions options
        = createClient ext (containerCallbacks sdk SK) u credInfo credOpOptions options
      ∧ CreateBlobClient ext sdk SK u credInfo credOpOptions options
        = createClient ext (blobCallbacks sdk SK) u credInfo credOpOptions options
      ∧ CreateBlockBlobClient ext sdk SK u credInfo credOpOptions options
        = createClient ext (blockBlobCallbacks sdk SK) u credInfo credOpOptions options)
    ∧ ((CreateContainerClient ext sdk SK u credInfo credOpOptions options).trace
        = (CreateBlobServiceClient ext sdk SK u credInfo credOpOptions options).trace
      ∧ (CreateBlobClient ext sdk SK u credInfo credOpOptions options).trace
        = (CreateBlobServiceClient ext sdk SK u credInfo credOpOptions options).trace
      ∧ (CreateBlockBlobClient ext sdk SK u credInfo credOpOptions options).trace
        = (CreateBlobServiceClient ext sdk SK u credInfo credOpOptions options).trace)
    ∧ ((CreateContainerClient ext sdk SK u credInfo credOpOptions options).branch
        = (CreateBlobServiceClient ext sdk SK u credInfo credOpOptions options).branch
      ∧ (CreateBlobClient ext sdk SK u credInfo credOpOptions options).branch
        = (CreateBlobServiceClient ext sdk SK u credInfo credOpOptions options).branch
      ∧ (CreateBlockBlobClient ext sdk SK u credInfo credOpOptions options).branch
        = (CreateBlobServiceClient ext sdk SK u credInfo credOpOptions options).branch)
    ∧ (∀ code : Nat, credInfo.CredentialType = CredentialType.other code →
        (CreateBlobServiceClient ext sdk SK u credInfo credOpOptions options).failure
            = unsupportedFailure ext (effectiveOptions ext credOpOptions) credInfo.CredentialType
          ∧ (CreateContainerClient ext sdk SK u credInfo credOpOptions options).failure
            = unsupportedFailure ext (effectiveOptions ext credOpOptions) credInfo.CredentialType
          ∧ (CreateBlobClient ext sdk SK u credInfo credOpOptions options).failure
            = unsupportedFailure ext (effectiveOptions ext credOpOptions) credInfo.CredentialType
          ∧ (CreateBlockBlobClient ext sdk SK u credInfo credOpOptions options).failure
            = unsupportedFailure ext (effectiveOptions ext credOpOptions) credInfo.CredentialType
          ∧ (CreateBlobServiceClient ext sdk SK u credInfo credOpOptions options).client = none
          ∧ (CreateContainerClient ext sdk SK u credInfo credOpOptions options).client = none
          ∧ (CreateBlobClient ext sdk SK u credInfo credOpOptions options).client = none
          ∧ (CreateBlockBlobClient ext sdk SK u credInfo credOpOptions options).client = none
          ∧ (CreateBlobServiceClient ext sdk SK u credInfo credOpOptions options).branch
              = Branch.error) := by
  have htr : ∀ {T1 U1 T2 U2 : Type} (cb : newClientCallbacks TC CO T1 U1)
      (cb' : newClientCallbacks TC CO T2 U2),
      (createClient ext cb u credInfo credOpOptions options).trace
        = (createClient ext cb' u credInfo credOpOptions options).trace :=
    fun cb cb' => createClient_trace_callbacks ext cb cb' u credInfo credOpOptions options
  refine ⟨⟨rfl, rfl, rfl, rfl⟩, ⟨htr _ _, htr _ _, htr _ _⟩, ?_, ?_⟩
  · simp only [Exec.branch]
    refine ⟨?_, ?_, ?_⟩
    · rw [show (CreateContainerClient ext sdk SK u credInfo credOpOptions options).trace
          = (CreateBlobServiceClient ext sdk SK u credInfo credOpOptions options).trace
          from htr _ _]
    · rw [show (CreateBlobClient ext sdk SK u credInfo credOpOptions options).trace
          = (CreateBlobServiceClient ext sdk SK u credInfo credOpOptions options).trace
          from htr _ _]
    · rw [show (CreateBlockBlobClient ext sdk SK u credInfo credOpOptions options).trace
          = (CreateBlobServiceClient ext sdk SK u credInfo credOpOptions options).trace
          from htr _ _]
  · intro code h
    obtain ⟨t, ti⟩ := credInfo
    simp only at h
    subst h
    simp only [CreateBlobServiceClient, CreateContainerClient, CreateBlobClient,
      CreateBlockBlobClient, createClient_other, Exec.failure, Exec.client, Exec.branch,
      unsupportedFailure]
    cases hp : ext.panicError (effectiveOptions ext credOpOptions)
        (unsupportedMsg ext (CredentialType.other code)) <;>
      simp [Call.isToken, Call.isNoCredential]

/-- Witness of C8 on `sampleExternals` and `sampleSDK`: with credential type `other 3` the
service and the block-blob wrapper both end in the panic raised by `panicError`. -/
theorem create_clients_share_createClient_witness :
    (CreateBlobServiceClient sampleExternals sampleSDK Unit "https://a"
        ⟨CredentialType.other 3, 0⟩ none 7).failure
      = Except.error "invalid state, credential type Unknown is not supported"
    ∧ (CreateBlockBlobClient sampleExternals sampleSDK Unit "https://a"
        ⟨CredentialType.other 3, 0⟩ none 7).failure
      = Except.error "invalid state, credential type Unknown is not supported" :=
  ⟨((create_clients_share_createClient sampleExternals sampleSDK Unit "https://a"
      ⟨CredentialType.other 3, 0⟩ none 7).2.2.2 3 rfl).1,
    ((create_clients_share_createClient sampleExternals sampleSDK Unit "https://a"
      ⟨CredentialType.other 3, 0⟩ none 7).2.2.2 3 rfl).2.2.2.1⟩

end common

namespace cmd

section lemmas

theorem source_dispatch (pc : PropertyChanges) (path : String) :
    (dispatch pc path).Source = path := rfl

theorem sources_map_dispatch (pc : PropertyChanges) (paths : List String) :
    sources (paths.map (dispatch pc)) = paths := by
  induction paths with
  | nil => rfl
  | cons a l ih =>
    simp only [sources, List.map_cons, List.cons.injEq] at ih ⊢
    exact ⟨rfl, ih⟩

theorem sources_scheduleFrom (cooked : CookedArgs) (enumerated : List String) :
    sources (scheduleFrom cooked enumerated)
      = enumerated.filter (shouldInclude cooked.includePatterns cooked.excludePatterns) :=
  sources_map_dispatch _ _

theorem shouldInclude_iff (inc exc : List String) (o : String) :
    shouldInclude inc exc o = true ↔
      (inc = [] ∨ ∃ p ∈ inc, patternMatches p o = true)
        ∧ ∀ p ∈ exc, patternMatches p o = false := by
  simp [shouldInclude, List.isEmpty_iff]

theorem shouldInclude_nil (o : String) : shouldInclude [] [] o = true := rfl

theorem filter_shouldInclude_nil (l : List String) : l.filter (shouldInclude [] []) = l := by
  induction l with
  | nil => rfl
  | cons a l ih => simp [List.filter_cons, shouldInclude_nil, ih]

theorem isDirectChild_iff (path : String) :
    isDirectChild path = true ↔ AZCOPY_PATH_SEPARATOR_CHAR ∉ path.toList := by
  simp [isDirectChild]

end lemmas

/-- C1: the set-properties command schedules an enumerated object iff (the include set is empty
or some include pattern matches it) and no exclude pattern matches it; an object that some
exclude pattern matches is never scheduled, whatever the include patterns.  On include
`*.pdf;*.jpeg;exactName`, exclude `so*;not*;exactName` and the objects `important.pdf`,
`includeSub/amazing.jpeg`, `sorry.pdf`, `exclude/notGood.jpeg`, `exactName`, `sub/exactName`,
exactly `important.pdf` and `includeSub/amazing.jpeg` are scheduled. -/
theorem setProperties_include_exclude_policy (cooked : CookedArgs) (objects : List String)
    (o : String) :
    (o ∈ sources (schedule cooked objects) ↔
        o ∈ enumerate cooked objects
          ∧ (cooked.includePatterns = []
              ∨ ∃ p ∈ cooked.includePatterns, patternMatches p o = true)
          ∧ ∀ p ∈ cooked.excludePatterns, patternMatches p o = false)
      ∧ ((∃ p ∈ cooked.excludePatterns, patternMatches p o = true) →
          o ∉ sources (schedule cooked objects))
      ∧ runSetProperties includeExcludeRaw
          ["important.pdf", "includeSub/amazing.jpeg", "sorry.pdf", "exclude/notGood.jpeg",
            "exactName", "sub/exactName"]
        = Except.ok [dispatch coolChanges "important.pdf",
            dispatch coolChanges "includeSub/amazing.jpeg"] := by
  have hiff : o ∈ sources (schedule cooked objects) ↔
      o ∈ enumerate cooked objects
        ∧ (cooked.includePatterns = []
            ∨ ∃ p ∈ cooked.includePatterns, patternMatches p o = true)
        ∧ ∀ p ∈ cooked.excludePatterns, patternMatches p o = false := by
    rw [schedule, sources_scheduleFrom, List.mem_filter, shouldInclude_iff]
  refine ⟨hiff, ?_, ?_⟩
  · rintro ⟨p, hp, hm⟩ hmem
    have h := (hiff.1 hmem).2.2 p hp
    rw [hm] at h
    exact Bool.noConfusion h
  · decide

/-- Witness of C1: `sorry.pdf` matches the include pattern `*.pdf` and the exclude pattern `so*`,
and is not scheduled. -/
theorem setProperties_include_exclude_policy_witness :
    patternMatches "*.pdf" "sorry.pdf" = true
      ∧ "sorry.pdf" ∉ sources (schedule includeExcludeCooked (blobsToInclude ++ blobsToExclude)) :=
  ⟨by decide,
    (setProperties_include_exclude_policy includeExcludeCooked (blobsToInclude ++ blobsToExclude)
      "sorry.pdf").2.1 ⟨"so*", by decide, by decide⟩⟩

/-- C2: without filters, a recursive run schedules every object of the container, one transfer
per object, and a non-recursive run schedules exactly the direct children, so that no scheduled
relative source path contains the path separator.  On `top`, `sub1/a`, `sub1/sub3/sub5/b` the
non-recursive run schedules only `top` and the recursive run all three. -/
theorem setProperties_recursive_vs_flat (pc : PropertyChanges) (objects : List String) :
    sources (schedule (unfiltered true pc) objects) = objects
      ∧ (schedule (unfiltered true pc) objects).length = objects.length
      ∧ sources (schedule (unfiltered false pc) objects) = objects.filter isDirectChild
      ∧ (∀ t ∈ schedule (unfiltered false pc) objects,
          AZCOPY_PATH_SEPARATOR_CHAR ∉ t.Source.toList)
      ∧ runSetProperties (underContainerRaw true) ["top", "sub1/a", "sub1/sub3/sub5/b"]
          = Except.ok [dispatch coolChanges "top", dispatch coolChanges "sub1/a",
              dispatch coolChanges "sub1/sub3/sub5/b"]
      ∧ runSetProperties (underContainerRaw false) ["top", "sub1/a", "sub1/sub3/sub5/b"]
          = Except.ok [dispatch coolChanges "top"] := by
  have hrec : sources (schedule (unfiltered true pc) objects) = objects := by
    rw [schedule, sources_scheduleFrom]
    exact filter_shouldInclude_nil objects
  have hflat : sources (schedule (unfiltered false pc) objects)
      = objects.filter isDirectChild := by
    rw [schedule, sources_scheduleFrom]
    exact filter_shouldInclude_nil _
  refine ⟨hrec, ?_, hflat, ?_, by decide, by decide⟩
  · have h := congrArg List.length hrec
    simpa [sources] using h
  · intro t ht
    have hmem : t.Source ∈ sources (schedule (unfiltered false pc) objects) :=
      List.mem_map_of_mem CopyTransfer.Source ht
    rw [hflat, List.mem_filter] at hmem
    exact (isDirectChild_iff _).1 hmem.2

/-- Witness of C2: the transfer for `top` is scheduled by the non-recursive run and its source
holds no separator. -/
theorem setProperties_recursive_vs_flat_witness :
    AZCOPY_PATH_SEPARATOR_CHAR ∉ (dispatch coolChanges "top").Source.toList :=
  (setProperties_recursive_vs_flat coolChanges ["top", "sub1/a", "sub1/sub3/sub5/b"]).2.2.2.1
    (dispatch coolChanges "top") (by decide)

/-- C3: for every set of objects (a container holds each path once) and every filter
configuration, the number of scheduled transfers is the number of enumerated objects that pass
the filter, no source is scheduled twice, and each path is the source of exactly one transfer
when it was enumerated and passes the filter, and of none otherwise. -/
theorem setProperties_count_and_once (cooked : CookedArgs) (objects : List String)
    (hnodup : objects.Nodup) :
    (schedule cooked objects).length
        = ((enumerate cooked objects).filter
            (shouldInclude cooked.includePatterns cooked.excludePatterns)).length
      ∧ (sources (schedule cooked objects)).Nodup
      ∧ ∀ o : String, (sources (schedule cooked objects)).count o
          = if o ∈ enumerate cooked objects
              ∧ shouldInclude cooked.includePatterns cooked.excludePatterns o = true
            then 1 else 0 := by
  have henum : (enumerate cooked objects).Nodup := by
    unfold enumerate enumerateContainer
    cases cooked.listOfFiles with
    | none =>
      simp only
      split
      · exact hnodup
      · exact hnodup.filter _
    | some l => exact hnodup.filter _
  have hsrc : sources (schedule cooked objects)
      = (enumerate cooked objects).filter
          (shouldInclude cooked.includePatterns cooked.excludePatterns) := by
    rw [schedule, sources_scheduleFrom]
  have hnd : (sources (schedule cooked objects)).Nodup := by
    rw [hsrc]
    exact henum.filter _
  refine ⟨?_, hnd, ?_⟩
  · simp [schedule, scheduleFrom]
  · intro o
    rw [List.count_eq_of_nodup hnd, hsrc]
    simp only [List.mem_filter]

/-- Witness of C3: the six blobs of the include-and-exclude test, two of which pass. -/
theorem setProperties_count_and_once_witness :
    (schedule includeExcludeCooked (blobsToInclude ++ blobsToExclude)).length = 2
      ∧ (sources (schedule includeExcludeCooked (blobsToInclude ++ blobsToExclude))).count
          "important.pdf" = 1 :=
  ⟨((setProperties_count_and_once includeExcludeCooked (blobsToInclude ++ blobsToExclude)
      (by decide)).1).trans (by decide),
    (((setProperties_count_and_once includeExcludeCooked (blobsToInclude ++ blobsToExclude)
      (by decide)).2.2) "important.pdf").trans (by decide)⟩

/-- C4: with a list-of-files and include and exclude patterns, the scheduled transfers are
exactly the objects of the source that the list covers (an entry names the object, or a
directory above it) and that pass the include/exclude policy; an object named in the list that
exists and passes is scheduled; an entry that covers no object of the source adds nothing.  On
the list of the test (50 existing blobs, a directory, 2 names that do not exist, 2
include-matching and 4 exclude-matching blobs: 59 entries) exactly the 2 include-matching
transfers are scheduled. -/
theorem setProperties_listOfFiles_prefilter (recursive : Bool) (inc exc listOfFiles : List String)
    (pc : PropertyChanges) (objects : List String) :
    sources (schedule (withListOfFiles recursive inc exc listOfFiles pc) objects)
        = objects.filter
            (fun o => inListOfFiles recursive listOfFiles o && shouldInclude inc exc o)
      ∧ (∀ o : String, o ∈ listOfFiles → o ∈ objects → shouldInclude inc exc o = true →
          o ∈ sources (schedule (withListOfFiles recursive inc exc listOfFiles pc) objects))
      ∧ (∀ missing : String, (∀ o ∈ objects, listCovers recursive missing o = false) →
          schedule (withListOfFiles recursive inc exc (listOfFiles ++ [missing]) pc) objects
            = schedule (withListOfFiles recursive inc exc listOfFiles pc) objects)
      ∧ runSetProperties listOfFilesRaw sampleContainer
          = Except.ok [dispatch coolChanges "important.pdf",
              dispatch coolChanges "includeSub/amazing.jpeg"]
      ∧ sampleListOfFiles.length = 59 := by
  have hsrc : sources (schedule (withListOfFiles recursive inc exc listOfFiles pc) objects)
      = objects.filter
          (fun o => inListOfFiles recursive listOfFiles o && shouldInclude inc exc o) := by
    rw [schedule, sources_scheduleFrom]
    simp only [enumerate, withListOfFiles, List.filter_filter]
    congr 1
    funext o
    exact Bool.and_comm _ _
  refine ⟨hsrc, ?_, ?_, by decide, by decide⟩
  · intro o hl ho hp
    rw [hsrc, List.mem_filter]
    refine ⟨ho, ?_⟩
    have hc : inListOfFiles recursive listOfFiles o = true := by
      simp only [inListOfFiles, List.any_eq_true]
      exact ⟨o, hl, by simp [listCovers]⟩
    simp [hc, hp]
  · intro missing hmiss
    simp only [schedule, scheduleFrom, enumerate, withListOfFiles]
    congr 2
    apply List.filter_congr
    intro o ho
    simp [inListOfFiles, List.any_append, hmiss o ho]

/-- Witness of C4: `important.pdf` is in the list, exists and passes; `WUTAMIDOING` covers no
blob of the container, so listing it changes nothing. -/
theorem setProperties_listOfFiles_prefilter_witness :
    "important.pdf" ∈ sources (schedule
        (withListOfFiles true ["*.pdf"] ["so*"] ["important.pdf", "sorry.pdf"] coolChanges)
        (blobsToInclude ++ blobsToExclude))
      ∧ schedule
          (withListOfFiles true ["*.pdf"] ["so*"] (["important.pdf", "sorry.pdf"] ++ ["WUTAMIDOING"])
            coolChanges) (blobsToInclude ++ blobsToExclude)
        = schedule
          (withListOfFiles true ["*.pdf"] ["so*"] ["important.pdf", "sorry.pdf"] coolChanges)
          (blobsToInclude ++ blobsToExclude) :=
  ⟨(setProperties_listOfFiles_prefilter true ["*.pdf"] ["so*"] ["important.pdf", "sorry.pdf"]
      coolChanges (blobsToInclude ++ blobsToExclude)).2.1 "important.pdf"
      (by decide) (by decide) (by decide),
    (setProperties_listOfFiles_prefilter true ["*.pdf"] ["so*"] ["important.pdf", "sorry.pdf"]
      coolChanges (blobsToInclude ++ blobsToExclude)).2.2.1 "WUTAMIDOING" (by decide)⟩

/-- C5: every transfer scheduled by a run carries the requested property changes, whatever the
object: its `BlobTier` is the access tier of the requested block-blob tier, its `Metadata` is
the map parsed from the requested metadata string, which is empty for the empty string, and its
`BlobTags` are the requested tags. -/
theorem setProperties_transfers_carry_changes (tp : transferParams) (raw : rawCopyCmdArgs)
    (objects : List String) (transfers : List CopyTransfer)
    (htier : raw.blockBlobTier = tp.blockBlobTier) (hmeta : raw.metadata = tp.metadata)
    (htags : raw.blobTags = tp.blobTags)
    (hrun : runSetProperties raw objects = Except.ok transfers) :
    ∀ t ∈ transfers,
      t.BlobTier = tp.blockBlobTier.ToAccessTierType
        ∧ tp.getMetadata = Except.ok t.Metadata
        ∧ (tp.metadata = "" → t.Metadata = [])
        ∧ t.BlobTags = tp.blobTags := by
  intro t ht
  unfold runSetProperties at hrun
  cases hc : cook raw with
  | error e => rw [hc] at hrun; cases hrun
  | ok cooked =>
    rw [hc] at hrun
    have hpc : cooked.propertyChanges.BlobTier = tp.blockBlobTier.ToAccessTierType
        ∧ StringToMetadata tp.metadata = Except.ok cooked.propertyChanges.Metadata
        ∧ cooked.propertyChanges.BlobTags = tp.blobTags := by
      unfold cook at hc
      split at hc
      · cases hm : StringToMetadata raw.metadata with
        | error e => rw [hm] at hc; cases hc
        | ok md =>
          rw [hm] at hc
          simp only [Except.ok.injEq] at hc
          subst hc
          rw [← hmeta, hm, htier, htags]
          exact ⟨rfl, rfl, rfl⟩
      · cases hc
    have hall : ∀ l : List String, ∀ t ∈ scheduleFrom cooked l,
        t.BlobTier = cooked.propertyChanges.BlobTier
          ∧ t.Metadata = cooked.propertyChanges.Metadata
          ∧ t.BlobTags = cooked.propertyChanges.BlobTags := by
      intro l t ht
      simp only [scheduleFrom, List.mem_map] at ht
      obtain ⟨o, -, rfl⟩ := ht
      exact ⟨rfl, rfl, rfl⟩
    have ht' : t.BlobTier = cooked.propertyChanges.BlobTier
        ∧ t.Metadata = cooked.propertyChanges.Metadata
        ∧ t.BlobTags = cooked.propertyChanges.BlobTags := by
      simp only [Except.ok.injEq] at hrun
      subst hrun
      exact hall _ t ht
    obtain ⟨h1, h2, h3⟩ := ht'
    obtain ⟨p1, p2, p3⟩ := hpc
    refine ⟨h1.trans p1, ?_, ?_, h3.trans p3⟩
    · simp only [transferParams.getMetadata, p2, h2]
    · intro hempty
      rw [hempty] at p2
      have : (Except.ok [] : Except String Metadata)
          = Except.ok cooked.propertyChanges.Metadata := p2
      simp only [Except.ok.injEq] at this
      rw [h2, ← this]

/-- Witness of C5: the run of `TestSetPropertiesSingleBlobForBlobTier`, tier `Cool`, metadata
`abc=def;metadata=value`, tags `abc: fgd`, where the blob is listed below its own URL with the
relative path that the test expects. -/
theorem setProperties_transfers_carry_changes_witness :
    (dispatch fullChanges "").BlobTier = fullParams.blockBlobTier.ToAccessTierType
      ∧ fullParams.getMetadata = Except.ok (dispatch fullChanges "").Metadata
      ∧ (dispatch fullChanges "").BlobTags = fullParams.blobTags :=
  have h := setProperties_transfers_carry_changes fullParams
    (singleBlobRaw "top/mid/low/singleblobisbest" fullParams "") [""]
    [dispatch fullChanges ""] rfl rfl rfl (by decide) (dispatch fullChanges "")
    (List.mem_singleton.2 rfl)
  ⟨h.1, h.2.1, h.2.2.2⟩

end cmd

namespace e2etest

/-- When the text limit leaves room for the prefix and the dash, `generateName` keeps both
and cuts only the lowercased scenario name. -/
theorem generateName_cuts_name_when_room (lib : Lib) (c : asserter) (pfx : GoString)
    (maxLen : Int) (r : GoString)
    (hroom : (pfx.length : Int) + 1 ≤ maxLen - (lib.guidSuffix.length : Int))
    (hret : generateName lib c pfx maxLen = Except.ok r) :
    ∃ k : Nat, r = pfx ++ dash ++ (lib.ToLower c.CompactScenarioName).take k ++ lib.guidSuffix := by
  unfold generateName at hret
  simp only [textualPortion] at hret
  split at hret
  · split at hret
    · cases hret
    · simp only [Except.ok.injEq] at hret
      subst hret
      split
      · refine ⟨(maxLen - (lib.guidSuffix.length : Int)).toNat - (pfx ++ dash).length, ?_⟩
        rw [List.take_append_eq_append_take]
        have hlen : (pfx ++ dash).length ≤ (maxLen - (lib.guidSuffix.length : Int)).toNat := by
          simp only [List.length_append, dash, List.length_singleton]
          omega
        rw [List.take_of_length_le hlen]
      · exact ⟨(lib.ToLower c.CompactScenarioName).length, by rw [List.take_length]⟩
  · simp only [Except.ok.injEq] at hret
    subst hret
    exact ⟨(lib.ToLower c.CompactScenarioName).length, by rw [List.take_length]⟩

/-- C11, at the failing input: prefix `blob`, scenario name `X`, a 36-byte GUID suffix and
`maxLen = 38` leave two bytes for the text, so `generateName` returns `bl` followed by the
suffix: the prefix itself is cut and the result does not begin with `blob-`. -/
theorem generateName_cuts_prefix :
    generateName guidLib shortAsserter blobPrefix 38 = Except.ok ([98, 108] ++ guidLib.guidSuffix)
      ∧ ¬ (blobPrefix ++ dash) <+: ([98, 108] ++ guidLib.guidSuffix) := by
  refine ⟨by decide, by decide⟩

end e2etest

namespace common

/-- C18: for a credential type other than `OAuthToken` and `Anonymous`, `createClient` makes
one call, `panicError` with the error `invalid state, credential type <type> is not supported`,
and no callback call; it returns no client; and when `panicError` returns, it returns a nil
client together with an error of the same text. -/
theorem createClient_unsupported_type {TI TC CO L X T U : Type} (ext : Externals TI TC L X)
    (callbacks : newClientCallbacks TC CO T U) (u : String) (ti : TI) (code : Nat)
    (credOpOptions : Option (CredentialOpOptions L X)) (options : CO) :
    (createClient ext callbacks u ⟨CredentialType.other code, ti⟩ credOpOptions options).trace
        = [Call.panicError (effectiveOptions ext credOpOptions)
            ("invalid state, credential type " ++ ext.fmtCredentialType (CredentialType.other code)
              ++ " is not supported")]
      ∧ (createClient ext callbacks u ⟨CredentialType.other code, ti⟩ credOpOptions
          options).branch = Branch.error
      ∧ (createClient ext callbacks u ⟨CredentialType.other code, ti⟩ credOpOptions
          options).client = none
      ∧ (∀ v : String,
          ext.panicError (effectiveOptions ext credOpOptions)
              ("invalid state, credential type "
                ++ ext.fmtCredentialType (CredentialType.other code) ++ " is not supported")
            = some v →
          (createClient ext callbacks u ⟨CredentialType.other code, ti⟩ credOpOptions
            options).result = Except.error v)
      ∧ (ext.panicError (effectiveOptions ext credOpOptions)
              ("invalid state, credential type "
                ++ ext.fmtCredentialType (CredentialType.other code) ++ " is not supported")
            = none →
          (createClient ext callbacks u ⟨CredentialType.other code, ti⟩ credOpOptions
            options).result
            = Except.ok (none, some ("invalid state, credential type "
                ++ ext.fmtCredentialType (CredentialType.other code) ++ " is not supported"))) := by
  rw [createClient_other]
  refine ⟨rfl, ?_, ?_, ?_, ?_⟩
  · simp [Exec.branch, Call.isToken, Call.isNoCredential]
  · simp only [Exec.client]
    cases ext.panicError (effectiveOptions ext credOpOptions)
      (unsupportedMsg ext (CredentialType.other code)) <;> rfl
  · intro v hv
    have hv' : ext.panicError (effectiveOptions ext credOpOptions)
        (unsupportedMsg ext (CredentialType.other code)) = some v := hv
    simp only [hv']
  · intro hn
    have hn' : ext.panicError (effectiveOptions ext credOpOptions)
        (unsupportedMsg ext (CredentialType.other code)) = none := hn
    simp only [hn']
    rfl

/-- Witness of C18: credential type `other 3`, once with a `panicError` that panics and once
with one that returns. -/
theorem createClient_unsupported_type_witness :
    (createClient sampleExternals sampleCallbacks "https://a/c" ⟨CredentialType.other 3, 0⟩
        none 7).result
        = Except.error "invalid state, credential type Unknown is not supported"
      ∧ (createClient handlerExternals sampleCallbacks "https://a/c" ⟨CredentialType.other 3, 0⟩
        (some returningOptions) 7).result
        = Except.ok (none, some "invalid state, credential type Unknown is not supported") :=
  ⟨(createClient_unsupported_type sampleExternals sampleCallbacks "https://a/c" 0 3 none
      7).2.2.2.1 "invalid state, credential type Unknown is not supported" rfl,
    (createClient_unsupported_type handlerExternals sampleCallbacks "https://a/c" 0 3
      (some returningOptions) 7).2.2.2.2 rfl⟩

/-- With credential type `OAuthToken` and a `panicError` that panics, empty token info or a
failing `GetTokenCredential` ends the run in that panic, before the token callback. -/
theorem createClient_oauth_failure_panics {TI TC CO L X T U : Type} (ext : Externals TI TC L X)
    (callbacks : newClientCallbacks TC CO T U) (u : String) (ti : TI)
    (credOpOptions : Option (CredentialOpOptions L X)) (options : CO)
    (hpanic : ∀ o err, ext.panicError o err ≠ none)
    (hfail : ext.IsEmpty ti = true ∨ (ext.GetTokenCredential ti).2 ≠ none) :
    (createClient ext callbacks u ⟨CredentialType.OAuthToken, ti⟩ credOpOptions options).branch
        = Branch.error
      ∧ (createClient ext callbacks u ⟨CredentialType.OAuthToken, ti⟩ credOpOptions
          options).client = none := by
  simp only [createClient, Exec.bind_eq, Exec.pure_eq, Exec.bind, Exec.pure, callPanicError,
    callTokenCredential, Exec.branch, Exec.client]
  cases hE : ext.IsEmpty ti
  · have hg : (ext.GetTokenCredential ti).2 ≠ none := by
      rcases hfail with h | h
      · rw [hE] at h
        cases h
      · exact h
    cases hG : (ext.GetTokenCredential ti).2 with
    | none => exact absurd hG hg
    | some e =>
      cases hp : ext.panicError (effectiveOptions ext credOpOptions)
          ("unable to get token credential due to reason (" ++ e ++ ")") with
      | none => exact absurd hp (hpanic _ _)
      | some v =>
        have hp' := hp
        simp only [effectiveOptions] at hp'
        simp [hp', Call.isToken, Call.isNoCredential]
  · cases hp : ext.panicError (effectiveOptions ext credOpOptions)
        "invalid state, cannot get valid OAuth token information" with
    | none => exact absurd hp (hpanic _ _)
    | some v =>
      have hp' := hp
      simp only [effectiveOptions] at hp'
      simp [hp', Call.isToken, Call.isNoCredential]

/-- C19, at the failing inputs: with options whose `Panic` handler returns, `createClient` for
credential type `OAuthToken` goes on after the report.  With empty token info (`0`) and with a
failing `GetTokenCredential` (`1`) it calls the token callback and returns its client. -/
theorem createClient_oauth_falls_through :
    createClient handlerExternals sampleCallbacks "https://a/c" ⟨CredentialType.OAuthToken, 0⟩
        (some returningOptions) 7
        = ⟨[Call.panicError returningOptions
              "invalid state, cannot get valid OAuth token information",
            Call.TokenCredential "https://a/c" 100 7],
            Except.ok (some "https://a/c#token", none)⟩
      ∧ createClient handlerExternals sampleCallbacks "https://a/c" ⟨CredentialType.OAuthToken, 1⟩
        (some returningOptions) 7
        = ⟨[Call.panicError returningOptions
              "unable to get token credential due to reason (expired)",
            Call.TokenCredential "https://a/c" 101 7],
            Except.ok (some "https://a/c#token", none)⟩ :=
  ⟨rfl, rfl⟩

/-- C20: a nil `credOpOptions` is replaced by the literal `CredentialOpOptions{LogError:
glcm.Info}` before use: the run for nil is the run for that literal, every `panicError` call
of it receives that literal, and for credential type `Anonymous` the run, client and error
included, is the same for nil and for every non-nil `credOpOptions`. -/
theorem createClient_nil_options {TI TC CO L X T U : Type} (ext : Externals TI TC L X)
    (callbacks : newClientCallbacks TC CO T U) (u : String) (credInfo : CredentialInfo TI)
    (options : CO) :
    createClient ext callbacks u credInfo none options
        = createClient ext callbacks u credInfo
            (some { LogError := some ext.glcmInfo, others := ext.zeroOthers }) options
      ∧ (∀ (o : CredentialOpOptions L X) (err : String),
          Call.panicError o err ∈ (createClient ext callbacks u credInfo none options).trace →
          o = { LogError := some ext.glcmInfo, others := ext.zeroOthers })
      ∧ (credInfo.CredentialType = CredentialType.Anonymous →
          ∀ o : CredentialOpOptions L X,
            createClient ext callbacks u credInfo (some o) options
              = createClient ext callbacks u credInfo none options) := by
  obtain ⟨t, ti⟩ := credInfo
  refine ⟨rfl, ?_, ?_⟩
  · intro o err hmem
    cases t with
    | Anonymous =>
      rw [createClient_anonymous] at hmem
      simp at hmem
    | other code =>
      rw [createClient_other] at hmem
      simp only [List.mem_singleton, Call.panicError.injEq] at hmem
      rw [hmem.1]
      rfl
    | OAuthToken =>
      simp only [createClient, Exec.bind_eq, Exec.pure_eq, Exec.bind, Exec.pure, callPanicError,
        callTokenCredential] at hmem
      cases hE : ext.IsEmpty ti <;> cases hG : (ext.GetTokenCredential ti).2 <;>
        simp only [hE, hG] at hmem <;>
        (repeat' split at hmem) <;> simp at hmem <;>
        first
          | exact hmem.1
          | (rcases hmem with h | h <;> exact h.1)
  · intro h o
    simp only at h
    subst h
    rw [createClient_anonymous, createClient_anonymous]

/-- Witness of C20: an anonymous run with non-nil options equals the run with nil options. -/
theorem createClient_nil_options_witness :
    createClient sampleExternals sampleCallbacks "https://a/c" ⟨CredentialType.Anonymous, 0⟩
        (some { LogError := none, others := () }) 7
      = createClient sampleExternals sampleCallbacks "https://a/c" ⟨CredentialType.Anonymous, 0⟩
        none 7 :=
  (createClient_nil_options sampleExternals sampleCallbacks "https://a/c"
    ⟨CredentialType.Anonymous, 0⟩ 7).2.2 rfl { LogError := none, others := () }

end common

namespace e2etest

section lemmas

theorem isPrefixOf_singleton_cons (a c : UInt8) (cs : GoString) :
    [a].isPrefixOf (c :: cs) = (a == c) := by
  simp [List.isPrefixOf]

theorem replaceFrom_underscore_hyphen (n : Int) (hn : n < 0) (s : GoString) :
    (95 : UInt8) ∉ strings.replaceFrom [95] [45] n 0 s := by
  induction s generalizing n with
  | nil => simp [strings.replaceFrom]
  | cons c cs ih =>
    rw [strings.replaceFrom]
    split
    · rename_i h
      simp only [List.length_singleton, Nat.sub_self, List.singleton_append, List.mem_cons,
        not_or]
      exact ⟨by decide, ih (n - 1) (by omega)⟩
    · rename_i h
      have hc : ¬ ((95 : UInt8) == c) = true := by
        intro hc
        apply h
        refine ⟨by omega, ?_⟩
        rw [isPrefixOf_singleton_cons]
        exact hc
      simp only [List.mem_cons, not_or]
      refine ⟨?_, ih n hn⟩
      intro heq
      exact hc (by rw [heq]; exact beq_self_eq_true c)

theorem removeUnderscores_clean (s : GoString) : (95 : UInt8) ∉ removeUnderscores s := by
  have h : removeUnderscores s = strings.replaceFrom [95] [45] (-1) 0 s := by
    simp [removeUnderscores, strings.Replace]
  rw [h]
  exact replaceFrom_underscore_hyphen (-1) (by decide) s

theorem replaceFrom_underscore_empty (n : Int) (hn : n < 0) (s : GoString) :
    strings.replaceFrom [95] [] n 0 s = (splitAt 95 s).flatten := by
  induction s generalizing n with
  | nil => simp [strings.replaceFrom, splitAt]
  | cons c cs ih =>
    rw [strings.replaceFrom, splitAt]
    by_cases hc : c = 95
    · subst hc
      have hcond : n ≠ 0 ∧ List.isPrefixOf [95] ((95 : UInt8) :: cs) = true := by
        refine ⟨by omega, ?_⟩
        rw [isPrefixOf_singleton_cons]
        rfl
      rw [if_pos hcond, if_pos rfl]
      simp only [List.length_singleton, Nat.sub_self, List.nil_append, List.flatten_cons]
      exact ih (n - 1) (by omega)
    · have hcond : ¬ (n ≠ 0 ∧ List.isPrefixOf [95] (c :: cs) = true) := by
        rintro ⟨-, h⟩
        rw [isPrefixOf_singleton_cons] at h
        exact hc (eq_of_beq h).symm
      rw [if_neg hcond, if_neg hc, ih n hn]
      cases splitAt 95 cs with
      | nil => simp
      | cons h t => simp

theorem fileWords_eq_flatten (fileName : GoString) :
    fileWords fileName = (fileNameWords fileName).flatten := by
  simp only [fileWords, fileNameWords, strings.ReplaceAll, strings.Replace]
  rw [if_neg (by decide)]
  exact replaceFrom_underscore_empty (-1) (by decide) _

theorem indexFrom_infix (substr : GoString) (s : GoString) (i : Nat)
    (h : strings.indexFrom substr s i ≥ 0) : substr <:+: s := by
  induction s generalizing i with
  | nil =>
    rw [strings.indexFrom] at h
    split at h
    · rename_i he
      rw [List.isEmpty_iff] at he
      rw [he]
    · omega
  | cons c cs ih =>
    rw [strings.indexFrom] at h
    split at h
    · rename_i hp
      exact (List.isPrefixOf_iff_prefix.1 hp).isInfix
    · exact (ih (i + 1) h).trans (List.suffix_cons c cs).isInfix

theorem indexFrom_underscore (s : GoString) (i : Nat)
    (h : strings.indexFrom [95] s i ≥ 0) :
    ∃ k : Nat, strings.indexFrom [95] s i = (i : Int) + (k : Int)
      ∧ (95 : UInt8) ∉ s.take k ∧ s.drop k = 95 :: s.drop (k + 1) := by
  induction s generalizing i with
  | nil =>
    rw [strings.indexFrom] at h
    simp at h
  | cons c cs ih =>
    rw [strings.indexFrom] at h ⊢
    split
    · rename_i hp
      rw [isPrefixOf_singleton_cons] at hp
      have hc : c = 95 := (eq_of_beq hp).symm
      exact ⟨0, by simp, by simp, by simp [hc]⟩
    · rename_i hp
      rw [if_neg hp] at h
      rw [isPrefixOf_singleton_cons] at hp
      obtain ⟨k, hk, hnot, hdrop⟩ := ih (i + 1) h
      refine ⟨k + 1, ?_, ?_, ?_⟩
      · rw [hk]
        push_cast
        omega
      · simp only [List.take_succ_cons, List.mem_cons, not_or]
        refine ⟨?_, hnot⟩
        intro heq
        exact hp (by rw [heq]; exact beq_self_eq_true c)
      · simpa using hdrop

end lemmas

/-- C12: for every test name and every stack of frames, the test-name string that
`getTestName` returns contains no underscore. -/
theorem getTestName_no_underscore (lib : Lib) (tName : GoString) (frames : List Frame) :
    (95 : UInt8) ∉ (getTestName lib tName frames).2 := by
  unfold getTestName
  simp only
  split
  · split
    · exact removeUnderscores_clean _
    · exact removeUnderscores_clean _
  · exact removeUnderscores_clean _

/-- C13, at the failing input: for `TestSetProperties_SingleBlob` in
`zt_set_properties_test.go` `getTestName` returns the pseudo suite `setproperties`, which is
none of the words `set`, `properties` of the file name, and the test name does not begin with
`setproperties_`.  The convention written above the code asks for "one of the words in the file
name, followed by a _". -/
theorem getTestName_pseudoSuite_not_a_word :
    getTestName sampleLib (ascii "TestSetProperties_SingleBlob") sampleFrames
        = (ascii "setproperties", ascii "SingleBlob")
      ∧ ascii "setproperties" ≠ []
      ∧ fileNameWords (findTestFile (ascii "TestSetProperties_SingleBlob") sampleFrames)
        = [ascii "set", ascii "properties"]
      ∧ ascii "setproperties"
        ∉ fileNameWords (findTestFile (ascii "TestSetProperties_SingleBlob") sampleFrames)
      ∧ ¬ (ascii "setproperties" ++ [95]) <+: ascii "TestSetProperties_SingleBlob" := by
  refine ⟨by decide, by decide, by decide, by decide, by decide⟩

/-- What the code does ensure of a non-empty pseudo suite: it occurs somewhere in the words of
the test file's name joined without underscores, and the test name with its first `Test`
removed is `before ++ "_" ++ rest` where `before` holds no underscore, its lowercase form is
the pseudo suite, `rest` is not empty, and the returned test name is `rest` with its underscores
replaced. -/
theorem getTestName_pseudoSuite_sound (lib : Lib) (tName : GoString) (frames : List Frame)
    (hne : (getTestName lib tName frames).1 ≠ []) :
    (getTestName lib tName frames).1
        <:+: (fileNameWords (findTestFile tName frames)).flatten
      ∧ ∃ before rest : GoString,
          strings.Replace tName (ascii "Test") [] 1 = before ++ [95] ++ rest
            ∧ (95 : UInt8) ∉ before
            ∧ rest ≠ []
            ∧ lib.ToLower before = (getTestName lib tName frames).1
            ∧ (getTestName lib tName frames).2 = removeUnderscores rest := by
  unfold getTestName at hne ⊢
  simp only at hne ⊢
  split at hne
  · rename_i hpos
    rw [if_pos hpos]
    split at hne
    · rename_i hcont
      rw [if_pos hcont]
      simp only
      refine ⟨?_, ?_⟩
      · rw [← fileWords_eq_flatten]
        simp only [strings.Contains, decide_eq_true_eq] at hcont
        exact indexFrom_infix _ _ 0 hcont
      · obtain ⟨k, hk, hnot, hdrop⟩ :=
          indexFrom_underscore (strings.Replace tName (ascii "Test") [] 1) 0 hpos.1
        have hidx : strings.Index (strings.Replace tName (ascii "Test") [] 1) [95] = (k : Int) := by
          rw [strings.Index, hk]
          simp
        rw [hidx] at hpos ⊢
        simp only [Int.toNat_ofNat]
        refine ⟨(strings.Replace tName (ascii "Test") [] 1).take k,
          (strings.Replace tName (ascii "Test") [] 1).drop (k + 1), ?_, hnot, ?_, rfl, rfl⟩
        · have := List.take_append_drop k (strings.Replace tName (ascii "Test") [] 1)
          rw [hdrop] at this
          simpa using this.symm
        · intro hnil
          have hlen := congrArg List.length hnil
          simp only [List.length_drop, List.length_nil] at hlen
          omega
    · exact absurd rfl hne
  · exact absurd rfl hne

/-- An instance of `getTestName_pseudoSuite_sound`: `TestSetProperties_SingleBlob` in
`zt_set_properties_test.go`. -/
theorem getTestName_pseudoSuite_sound_witness :
    (getTestName sampleLib (ascii "TestSetProperties_SingleBlob") sampleFrames).1
      <:+: (fileNameWords (findTestFile (ascii "TestSetProperties_SingleBlob")
        sampleFrames)).flatten :=
  (getTestName_pseudoSuite_sound sampleLib (ascii "TestSetProperties_SingleBlob") sampleFrames
    (by decide)).1

/-- A part of a word is accepted as well: for a test `TestProp_SingleBlob` in
`zt_set_properties_test.go` the pseudo suite is `prop`, which is none of the words `set`,
`properties`. -/
theorem getTestName_pseudoSuite_part_of_word :
    getTestName sampleLib (ascii "TestProp_SingleBlob") partWordFrames
        = (ascii "prop", ascii "SingleBlob")
      ∧ ascii "prop"
        ∉ fileNameWords (findTestFile (ascii "TestProp_SingleBlob") partWordFrames) := by
  refine ⟨by decide, by decide⟩

end e2etest

namespace engine

section lemmas

theorem chunksFrom_ne_nil (cs p fuel off rem : Nat) : chunksFrom cs p fuel off rem ≠ [] := by
  cases fuel with
  | zero => simp [chunksFrom]
  | succ fuel =>
    rw [chunksFrom]
    split <;> simp

theorem chunksFrom_small (cs p fuel off rem : Nat) (h : rem ≤ cs) (hf : rem ≤ fuel) :
    chunksFrom cs p fuel off rem
      = [{ parent := p, offset := off, length := rem, attempts := 0,
           status := ChunkStatus.Queued }] := by
  cases fuel with
  | zero => rfl
  | succ fuel => rw [chunksFrom, if_pos h]

theorem chunksFrom_contiguous (cs p : Nat) :
    ∀ fuel off rem : Nat, contiguousFrom off (chunksFrom cs p fuel off rem) := by
  intro fuel
  induction fuel with
  | zero => intro off rem; simp [chunksFrom, contiguousFrom]
  | succ fuel ih =>
    intro off rem
    rw [chunksFrom]
    split
    · simp [contiguousFrom]
    · exact ⟨rfl, ih _ _⟩

theorem chunksFrom_total (cs p : Nat) (hcs : 0 < cs) :
    ∀ fuel off rem : Nat, rem ≤ fuel → totalLength (chunksFrom cs p fuel off rem) = rem := by
  intro fuel
  induction fuel with
  | zero => intro off rem _; simp [chunksFrom, totalLength]
  | succ fuel ih =>
    intro off rem hf
    rw [chunksFrom]
    split
    · simp [totalLength]
    · rename_i hgt
      have := ih (off + cs) (rem - cs) (by omega)
      simp only [totalLength, List.map_cons, List.sum_cons] at this ⊢
      omega

theorem chunksFrom_offset_ge (cs p : Nat) :
    ∀ fuel off rem : Nat, ∀ c ∈ chunksFrom cs p fuel off rem, off ≤ c.offset := by
  intro fuel
  induction fuel with
  | zero =>
    intro off rem c hc
    simp only [chunksFrom, List.mem_singleton] at hc
    rw [hc]
  | succ fuel ih =>
    intro off rem c hc
    rw [chunksFrom] at hc
    split at hc
    · simp only [List.mem_singleton] at hc
      rw [hc]
    · simp only [List.mem_cons] at hc
      rcases hc with hc | hc
      · rw [hc]
      · have := ih _ _ c hc
        omega

theorem chunksFrom_length_bounds (cs p : Nat) (hcs : 0 < cs) :
    ∀ fuel off rem : Nat, 0 < rem → rem ≤ fuel →
      ∀ c ∈ chunksFrom cs p fuel off rem, 0 < c.length ∧ c.length ≤ cs := by
  intro fuel
  induction fuel with
  | zero => intro off rem h0 hf; omega
  | succ fuel ih =>
    intro off rem h0 hf c hc
    rw [chunksFrom] at hc
    split at hc
    · rename_i hle
      simp only [List.mem_singleton] at hc
      rw [hc]
      exact ⟨h0, hle⟩
    · simp only [List.mem_cons] at hc
      rcases hc with hc | hc
      · rw [hc]
        exact ⟨hcs, le_refl _⟩
      · exact ih _ _ (by omega) (by omega) c hc

theorem chunksFrom_dropLast (cs p : Nat) :
    ∀ fuel off rem : Nat, ∀ c ∈ (chunksFrom cs p fuel off rem).dropLast, c.length = cs := by
  intro fuel
  induction fuel with
  | zero => intro off rem c hc; simp [chunksFrom] at hc
  | succ fuel ih =>
    intro off rem c hc
    rw [chunksFrom] at hc
    split at hc
    · simp at hc
    · rw [List.dropLast_cons_of_ne_nil (chunksFrom_ne_nil _ _ _ _ _)] at hc
      simp only [List.mem_cons] at hc
      rcases hc with hc | hc
      · rw [hc]
      · exact ih _ _ c hc

theorem chunksFrom_pairwise (cs p : Nat) :
    ∀ fuel off rem : Nat,
      (chunksFrom cs p fuel off rem).Pairwise (fun a b => a.offset + a.length ≤ b.offset) := by
  intro fuel
  induction fuel with
  | zero => intro off rem; simp [chunksFrom]
  | succ fuel ih =>
    intro off rem
    rw [chunksFrom]
    split
    · simp
    · rw [List.pairwise_cons]
      exact ⟨fun b hb => chunksFrom_offset_ge _ _ _ _ _ b hb, ih _ _⟩

theorem chunksFrom_head (cs p fuel off rem : Nat) :
    ((chunksFrom cs p fuel off rem).head?.map ChunkJob.offset) = some off := by
  cases fuel with
  | zero => rfl
  | succ fuel =>
    rw [chunksFrom]
    split <;> rfl

end lemmas

/-- C14: with a positive chunk size the dispatcher returns chunks.  For an object larger than
the threshold they start at offset 0, each starts where the one before it ends, an earlier
chunk ends at or before the start of every later one and starts strictly before it, all but
the last have the fixed chunk size and the last has between 1 and that many bytes, and the
lengths add up to the object size.  An object at or below the threshold yields exactly one
chunk, from offset 0 and of the object's size. -/
theorem dispatchChunks_partition (cfg : Config) (parent size : Nat)
    (hpos : 0 < cfg.chunkSize) :
    ∃ chunks : List ChunkJob,
      dispatchChunks cfg parent size = Except.ok chunks
        ∧ (size ≤ cfg.chunkSize →
            chunks = [{ parent := parent, offset := 0, length := size, attempts := 0,
                        status := ChunkStatus.Queued }])
        ∧ (cfg.chunkSize < size →
            chunks.head?.map ChunkJob.offset = some 0
              ∧ contiguousFrom 0 chunks
              ∧ chunks.Pairwise
                  (fun a b => a.offset + a.length ≤ b.offset ∧ a.offset < b.offset)
              ∧ (∀ c ∈ chunks.dropLast, c.length = cfg.chunkSize)
              ∧ (∀ c ∈ chunks.getLast?, 0 < c.length ∧ c.length ≤ cfg.chunkSize)
              ∧ 1 < chunks.length
              ∧ totalLength chunks = size) := by
  refine ⟨chunksFrom cfg.chunkSize parent size 0 size, ?_, ?_, ?_⟩
  · rw [dispatchChunks, if_neg (by omega)]
  · intro h
    exact chunksFrom_small _ _ _ _ _ h (le_refl _)
  · intro h
    have hb := chunksFrom_length_bounds cfg.chunkSize parent hpos size 0 size (by omega)
      (le_refl _)
    refine ⟨chunksFrom_head _ _ _ _ _, chunksFrom_contiguous _ _ _ _ _, ?_,
      chunksFrom_dropLast _ _ _ _ _, ?_, ?_, chunksFrom_total _ _ hpos _ _ _ (le_refl _)⟩
    · refine (chunksFrom_pairwise cfg.chunkSize parent size 0 size).imp_of_mem ?_
      intro a b ha _ hab
      have := (hb a ha).1
      exact ⟨hab, by omega⟩
    · intro c hc
      exact hb c (List.mem_of_mem_getLast? hc)
    · cases size with
      | zero => omega
      | succ n =>
        rw [chunksFrom, if_neg (by omega)]
        have := chunksFrom_ne_nil cfg.chunkSize parent n (0 + cfg.chunkSize)
          (n + 1 - cfg.chunkSize)
        simp only [List.length_cons]
        have hl := List.length_pos.2 this
        omega

end engine

namespace engine

/-- Witness of C14: chunks of 4 bytes, an object of 10 bytes: the lengths add up to 10. -/
theorem dispatchChunks_partition_witness :
    ∃ chunks : List ChunkJob,
      dispatchChunks sampleConfig 0 10 = Except.ok chunks ∧ totalLength chunks = 10 :=
  match dispatchChunks_partition sampleConfig 0 10 (by decide) with
  | ⟨chunks, h, _, hbig⟩ => ⟨chunks, h, (hbig (by decide)).2.2.2.2.2.2⟩

section lemmas

theorem record_terminal_of_terminal (maxAttempts : Nat) (c : ChunkJob) (o : Outcome)
    (ho : o.isTerminal = true) : (c.record maxAttempts o).status.isTerminal = true := by
  unfold ChunkJob.record
  split
  · assumption
  · cases o with
    | Completed => rfl
    | FailedNonRetryable => rfl
    | FailedRetryable => cases ho

theorem aggregate_invariant (chunks : List ChunkJob) :
    (aggregate chunks = JobStatus.Completed
        ↔ ∀ c ∈ chunks, c.status = ChunkStatus.Completed)
      ∧ (aggregate chunks = JobStatus.Failed
        ↔ ∃ c ∈ chunks, c.status = ChunkStatus.FailedTerminal) := by
  unfold aggregate
  by_cases hf : chunks.any (fun c => decide (c.status = ChunkStatus.FailedTerminal)) = true
  · rw [if_pos hf]
    have hex : ∃ c ∈ chunks, c.status = ChunkStatus.FailedTerminal := by
      simpa using hf
    refine ⟨⟨(fun h => by cases h), ?_⟩, ⟨fun _ => hex, fun _ => rfl⟩⟩
    intro hall
    obtain ⟨c, hc, hs⟩ := hex
    have := hall c hc
    rw [hs] at this
    cases this
  · rw [if_neg hf]
    have hnex : ¬ ∃ c ∈ chunks, c.status = ChunkStatus.FailedTerminal := by
      simpa using hf
    by_cases hc : chunks.all (fun c => decide (c.status = ChunkStatus.Completed)) = true
    · rw [if_pos hc]
      have hall : ∀ c ∈ chunks, c.status = ChunkStatus.Completed := by
        simpa using hc
      exact ⟨⟨fun _ => hall, fun _ => rfl⟩, ⟨(fun h => by cases h), fun h => absurd h hnex⟩⟩
    · rw [if_neg hc]
      have hnall : ¬ ∀ c ∈ chunks, c.status = ChunkStatus.Completed := by
        simpa using hc
      refine ⟨⟨?_, fun h => absurd h hnall⟩, ⟨?_, fun h => absurd h hnex⟩⟩
      · intro h
        split at h <;> cases h
      · intro h
        split at h <;> cases h

theorem updateChunk_invariant (t : Tracker) (cid : ChunkID) (job : TransferJob) (c : ChunkJob)
    (h : ∀ j ∈ t.jobs, JobInvariant j) : ∀ j ∈ (t.updateChunk cid job c).jobs, JobInvariant j := by
  intro j hj
  simp only [Tracker.updateChunk] at hj
  rcases List.mem_or_eq_of_mem_set hj with hj | hj
  · exact h j hj
  · rw [hj]
    exact aggregate_invariant _

theorem chunksFrom_queued (cs p : Nat) :
    ∀ fuel off rem : Nat, ∀ c ∈ chunksFrom cs p fuel off rem, c.status = ChunkStatus.Queued := by
  intro fuel
  induction fuel with
  | zero =>
    intro off rem c hc
    simp only [chunksFrom, List.mem_singleton] at hc
    rw [hc]
  | succ fuel ih =>
    intro off rem c hc
    rw [chunksFrom] at hc
    split at hc
    · simp only [List.mem_singleton] at hc
      rw [hc]
    · simp only [List.mem_cons] at hc
      rcases hc with hc | hc
      · rw [hc]
      · exact ih _ _ c hc

theorem submit_invariant (cfg : Config) (t t' : Tracker) (size : Nat)
    (h : ∀ j ∈ t.jobs, JobInvariant j) (hs : submit cfg t size = Except.ok t') :
    ∀ j ∈ t'.jobs, JobInvariant j := by
  unfold submit dispatchChunks at hs
  split at hs
  · cases hs
  · rename_i chunks hd
    split at hd
    · cases hd
    · simp only [Except.ok.injEq] at hd hs
      subst hs
      intro j hj
      simp only [List.mem_append, List.mem_singleton] at hj
      rcases hj with hj | hj
      · exact h j hj
      · subst hj
        subst hd
        have hq := chunksFrom_queued cfg.chunkSize t.jobs.length size 0 size
        obtain ⟨c0, l0, hl0⟩ := List.exists_cons_of_ne_nil
          (chunksFrom_ne_nil cfg.chunkSize t.jobs.length size 0 size)
        refine ⟨⟨(fun hh => by cases hh), ?_⟩, ⟨(fun hh => by cases hh), ?_⟩⟩
        · intro hall
          have h1 := hall c0 (by simp only; rw [hl0]; exact List.mem_cons_self _ _)
          have h2 := hq c0 (by rw [hl0]; exact List.mem_cons_self _ _)
          rw [h2] at h1
          cases h1
        · rintro ⟨c, hc, hs⟩
          have h2 := hq c hc
          rw [h2] at hs
          cases hs

theorem startChunk_invariant (t t' : Tracker) (cid : ChunkID)
    (h : ∀ j ∈ t.jobs, JobInvariant j) (hs : startChunk t cid = Except.ok t') :
    ∀ j ∈ t'.jobs, JobInvariant j := by
  unfold startChunk at hs
  split at hs
  · cases hs
  · split at hs
    · cases hs
    · simp only [Except.ok.injEq] at hs
      subst hs
      exact updateChunk_invariant _ _ _ _ h

theorem recordOutcome_invariant (cfg : Config) (t t' : Tracker) (cid : ChunkID) (o : Outcome)
    (h : ∀ j ∈ t.jobs, JobInvariant j) (hs : recordOutcome cfg t cid o = Except.ok t') :
    ∀ j ∈ t'.jobs, JobInvariant j := by
  unfold recordOutcome at hs
  split at hs
  · cases hs
  · split at hs
    · cases hs
    · split at hs
      · simp only [Except.ok.injEq] at hs
        subst hs
        exact h
      · simp only [Except.ok.injEq] at hs
        subst hs
        exact updateChunk_invariant _ _ _ _ h

theorem reachable_invariant (cfg : Config) (t : Tracker) (hr : Reachable cfg t) :
    ∀ j ∈ t.jobs, JobInvariant j := by
  induction hr with
  | init => intro j hj; cases hj
  | submit size _ hs ih => exact submit_invariant cfg _ _ size ih hs
  | start cid _ hs ih => exact startChunk_invariant _ _ cid ih hs
  | record cid o _ hs ih => exact recordOutcome_invariant cfg _ _ cid o ih hs

theorem attempt_of_terminal (maxAttempts : Nat) (c : ChunkJob) (o : Outcome)
    (h : c.status.isTerminal = true) : attempt maxAttempts c o = c := by
  have hstart : c.start = c := by
    unfold ChunkJob.start
    split
    · rename_i hq
      rw [hq] at h
      cases h
    · rfl
  rw [attempt, hstart]
  unfold ChunkJob.record
  rw [if_pos h]

theorem runAttempts_retryable (maxAttempts : Nat) (c : ChunkJob) (hc0 : c.attempts = 0)
    (hcq : c.status = ChunkStatus.Queued) (k : Nat) :
    (k < maxAttempts →
        (runAttempts maxAttempts (List.replicate k Outcome.FailedRetryable) c).status
            = ChunkStatus.Queued
          ∧ (runAttempts maxAttempts (List.replicate k Outcome.FailedRetryable) c).attempts = k)
      ∧ (0 < maxAttempts → maxAttempts ≤ k →
        (runAttempts maxAttempts (List.replicate k Outcome.FailedRetryable) c).status
            = ChunkStatus.FailedTerminal
          ∧ (runAttempts maxAttempts (List.replicate k Outcome.FailedRetryable) c).attempts
            = maxAttempts) := by
  induction k with
  | zero =>
    refine ⟨fun _ => ⟨hcq, hc0⟩, fun h1 h2 => by omega⟩
  | succ k ih =>
    have hstep : runAttempts maxAttempts (List.replicate (k + 1) Outcome.FailedRetryable) c
        = attempt maxAttempts
            (runAttempts maxAttempts (List.replicate k Outcome.FailedRetryable) c)
            Outcome.FailedRetryable := by
      simp only [runAttempts, List.replicate_succ', List.foldl_append, List.foldl_cons,
        List.foldl_nil]
    rw [hstep]
    refine ⟨?_, ?_⟩
    · intro hk
      obtain ⟨hs, ha⟩ := ih.1 (by omega)
      simp only [attempt, ChunkJob.start, hs, if_true, ChunkJob.record, ChunkStatus.isTerminal,
        ha]
      rw [if_neg (by simp), if_pos hk]
      exact ⟨rfl, rfl⟩
    · intro hpos hk
      by_cases hlt : k < maxAttempts
      · obtain ⟨hs, ha⟩ := ih.1 hlt
        simp only [attempt, ChunkJob.start, hs, if_true, ChunkJob.record,
          ChunkStatus.isTerminal, ha]
        rw [if_neg (by simp), if_neg (by omega)]
        exact ⟨rfl, by simp only; omega⟩
      · obtain ⟨hs, ha⟩ := ih.2 hpos (by omega)
        rw [attempt_of_terminal _ _ _ (by rw [hs]; rfl)]
        exact ⟨hs, ha⟩

end lemmas

end engine

namespace engine

/-- C15: `recordOutcome` is idempotent per chunk.  For every tracker state, chunk and terminal
outcome, a report that succeeds leaves a state on which the same report succeeds and changes
nothing, so two reports yield the state of one; and a report, of any outcome, for a chunk that
is already terminal returns the state unchanged and is not an error. -/
theorem recordOutcome_idempotent (cfg : Config) (t : Tracker) (cid : ChunkID) (o : Outcome) :
    (o.isTerminal = true → ∀ t' : Tracker, recordOutcome cfg t cid o = Except.ok t' →
        recordOutcome cfg t' cid o = Except.ok t')
      ∧ (∀ (job : TransferJob) (c : ChunkJob), t.jobs[cid.job]? = some job →
          job.chunks[cid.index]? = some c → c.status.isTerminal = true →
          recordOutcome cfg t cid o = Except.ok t) := by
  refine ⟨?_, ?_⟩
  · intro ho t' h
    unfold recordOutcome at h
    split at h
    · cases h
    · rename_i job hjob
      split at h
      · cases h
      · rename_i c hc
        split at h
        · rename_i hterm
          simp only [Except.ok.injEq] at h
          subst h
          unfold recordOutcome
          rw [hjob]
          simp only
          rw [hc]
          simp only
          rw [if_pos hterm]
        · simp only [Except.ok.injEq] at h
          subst h
          have hj : cid.job < t.jobs.length := (List.getElem?_eq_some.1 hjob).1
          have hi : cid.index < job.chunks.length := (List.getElem?_eq_some.1 hc).1
          unfold recordOutcome
          simp only [Tracker.updateChunk, List.getElem?_set_self hj, List.getElem?_set_self hi]
          rw [if_pos (record_terminal_of_terminal _ _ _ ho)]
  · intro job c hjob hc hterm
    unfold recordOutcome
    rw [hjob]
    simp only
    rw [hc]
    simp only
    rw [if_pos hterm]

/-- Witness of C15: the first chunk of the sample job completes; reporting it again changes
nothing. -/
theorem recordOutcome_idempotent_witness :
    recordOutcome sampleConfig sampleHalfDone { job := 0, index := 0 } Outcome.Completed
      = Except.ok sampleHalfDone :=
  (recordOutcome_idempotent sampleConfig sampleSubmitted { job := 0, index := 0 }
    Outcome.Completed).1 rfl sampleHalfDone (by decide)

/-- C16: with a positive maximum attempt count, a fresh chunk whose every attempt fails with a
retryable error is still Queued, with `k` attempts counted, after `k < maxAttempts` attempts,
and is Failed-Terminal with exactly `maxAttempts` attempts counted after `maxAttempts` attempts
and after every larger number of rounds; a non-retryable failure makes it Failed-Terminal on
the first attempt. -/
theorem retry_bound (maxAttempts parent offset length : Nat) (hpos : 0 < maxAttempts)
    (k : Nat) :
    (k < maxAttempts →
        (runAttempts maxAttempts (List.replicate k Outcome.FailedRetryable)
            (freshChunk parent offset length)).status = ChunkStatus.Queued
          ∧ (runAttempts maxAttempts (List.replicate k Outcome.FailedRetryable)
            (freshChunk parent offset length)).attempts = k)
      ∧ (maxAttempts ≤ k →
        (runAttempts maxAttempts (List.replicate k Outcome.FailedRetryable)
            (freshChunk parent offset length)).status = ChunkStatus.FailedTerminal
          ∧ (runAttempts maxAttempts (List.replicate k Outcome.FailedRetryable)
            (freshChunk parent offset length)).attempts = maxAttempts)
      ∧ (attempt maxAttempts (freshChunk parent offset length)
          Outcome.FailedNonRetryable).status = ChunkStatus.FailedTerminal
      ∧ (attempt maxAttempts (freshChunk parent offset length)
          Outcome.FailedNonRetryable).attempts = 1 := by
  have h := runAttempts_retryable maxAttempts (freshChunk parent offset length) rfl rfl k
  exact ⟨h.1, h.2 hpos, rfl, rfl⟩

/-- Witness of C16: three attempts allowed: Queued after two failures, Failed-Terminal with
three attempts counted after three and after five. -/
theorem retry_bound_witness :
    (runAttempts 3 (List.replicate 2 Outcome.FailedRetryable) (freshChunk 0 0 4)).status
        = ChunkStatus.Queued
      ∧ (runAttempts 3 (List.replicate 3 Outcome.FailedRetryable) (freshChunk 0 0 4)).status
        = ChunkStatus.FailedTerminal
      ∧ (runAttempts 3 (List.replicate 5 Outcome.FailedRetryable) (freshChunk 0 0 4)).attempts
        = 3 :=
  ⟨((retry_bound 3 0 0 4 (by decide) 2).1 (by decide)).1,
    ((retry_bound 3 0 0 4 (by decide) 3).2.1 (by decide)).1,
    ((retry_bound 3 0 0 4 (by decide) 5).2.1 (by decide)).2⟩

/-- C17: in every reachable tracker state each job's status is Completed iff all of its chunks
are Completed, and Failed iff at least one of its chunks is Failed-Terminal; and every
`recordOutcome` step keeps this true of every job. -/
theorem tracker_job_invariant (cfg : Config) :
    (∀ t : Tracker, Reachable cfg t → ∀ job ∈ t.jobs, JobInvariant job)
      ∧ (∀ (t t' : Tracker) (cid : ChunkID) (o : Outcome),
          (∀ job ∈ t.jobs, JobInvariant job) → recordOutcome cfg t cid o = Except.ok t' →
          ∀ job ∈ t'.jobs, JobInvariant job) :=
  ⟨fun t hr => reachable_invariant cfg t hr,
    fun t t' cid o h hs => recordOutcome_invariant cfg t t' cid o h hs⟩

/-- Witness of C17: the sample table after its first chunk completed is reachable, and its job,
which is Active, satisfies the invariant. -/
theorem tracker_job_invariant_witness :
    JobInvariant
      { id := 0, size := 6, status := JobStatus.Active,
        chunks := [{ freshChunk 0 0 4 with attempts := 1, status := ChunkStatus.Completed },
                   freshChunk 0 4 2] } :=
  (tracker_job_invariant sampleConfig).1 sampleHalfDone
    (Reachable.record { job := 0, index := 0 } Outcome.Completed
      (Reachable.submit 6 Reachable.init (by decide : submit sampleConfig { jobs := [] } 6
        = Except.ok sampleSubmitted))
      (by decide))
    _ (List.mem_singleton.2 rfl)

end engine

namespace e2etest

/-- C21: `generateName` panics with `max len too short` iff `0 < maxLen <= len(suffix)`,
whatever the prefix and the scenario name, and it raises no other panic; for every other
`maxLen` it returns a name; for `maxLen <= 0` the name is the whole text followed by the
suffix; and with the 36-byte GUID suffix the panic happens iff `0 < maxLen <= 36`. -/
theorem generateName_panics_iff (lib : Lib) (c : asserter) (pfx : GoString) (maxLen : Int) :
    (generateName lib c pfx maxLen = Except.error "max len too short"
        ↔ 0 < maxLen ∧ maxLen ≤ (lib.guidSuffix.length : Int))
      ∧ (∀ e : String, generateName lib c pfx maxLen = Except.error e →
          e = "max len too short")
      ∧ (¬ (0 < maxLen ∧ maxLen ≤ (lib.guidSuffix.length : Int)) →
          ∃ r : GoString, generateName lib c pfx maxLen = Except.ok r)
      ∧ (maxLen ≤ 0 →
          generateName lib c pfx maxLen
            = Except.ok (pfx ++ dash ++ lib.ToLower c.CompactScenarioName ++ lib.guidSuffix))
      ∧ (lib.guidSuffix.length = 36 →
          (generateName lib c pfx maxLen = Except.error "max len too short"
            ↔ 0 < maxLen ∧ maxLen ≤ 36)) := by
  have hiff : generateName lib c pfx maxLen = Except.error "max len too short"
      ↔ 0 < maxLen ∧ maxLen ≤ (lib.guidSuffix.length : Int) := by
    unfold generateName
    simp only
    constructor
    · intro h
      split at h
      · rename_i hpos
        split at h
        · rename_i hshort
          exact ⟨hpos, by omega⟩
        · cases h
      · cases h
    · rintro ⟨hpos, hle⟩
      rw [if_pos hpos, if_pos (by omega)]
  refine ⟨hiff, ?_, ?_, ?_, ?_⟩
  · intro e he
    unfold generateName at he
    simp only at he
    split at he
    · split at he
      · simp only [Except.error.injEq] at he
        exact he.symm
      · cases he
    · cases he
  · intro hn
    unfold generateName
    simp only
    split
    · rename_i hpos
      split
      · rename_i hshort
        exact absurd ⟨hpos, by omega⟩ hn
      · exact ⟨_, rfl⟩
    · exact ⟨_, rfl⟩
  · intro hle
    unfold generateName
    simp only [textualPortion]
    rw [if_neg (by omega)]
  · intro h36
    rw [hiff, h36]
    rfl

/-- Witness of C21: with the 36-byte GUID suffix, `maxLen = 36` panics and `maxLen = 37`
returns a name. -/
theorem generateName_panics_iff_witness :
    generateName guidLib shortAsserter blobPrefix 36 = Except.error "max len too short"
      ∧ ∃ r : GoString, generateName guidLib shortAsserter blobPrefix 37 = Except.ok r :=
  ⟨((generateName_panics_iff guidLib shortAsserter blobPrefix 36).2.2.2.2 (by decide)).2
      ⟨by decide, by decide⟩,
    (generateName_panics_iff guidLib shortAsserter blobPrefix 37).2.2.1 (by decide)⟩

end e2etest

namespace cmd

section lemmas

theorem Assert_ok_iff (b : Bool) : Assert b = Except.ok () ↔ b = true := by
  cases b <;> simp [Assert]

theorem rangeCheck_ok_iff {α : Type} (check : α → Except String Unit) (l : List α) :
    rangeCheck check l = Except.ok () ↔ ∀ x ∈ l, check x = Except.ok () := by
  induction l with
  | nil => simp [rangeCheck]
  | cons a l ih =>
    rw [rangeCheck]
    cases h : check a with
    | error e => simp [h]
    | ok u =>
      cases u
      simp [ih, h]

theorem GoMap.get?_eq_none_iff {V : Type} (m : GoMap V) (k : String) :
    m.get? k = none ↔ k ∉ m.keys := by
  induction m with
  | nil => simp [GoMap.get?, GoMap.keys]
  | cons e m ih =>
    simp only [GoMap.get?, GoMap.keys, List.find?_cons, List.map_cons, List.mem_cons, not_or]
      at ih ⊢
    by_cases he : e.1 = k
    · simp [he]
    · simp only [he, decide_False]
      rw [ih]
      exact ⟨fun h => ⟨fun h' => he h'.symm, h⟩, fun h => h.2⟩

theorem GoMap.mem_keys_of_get? {V : Type} (m : GoMap V) (k : String) (v : V)
    (h : m.get? k = some v) : k ∈ m.keys := by
  by_contra hk
  rw [(GoMap.get?_eq_none_iff m k).2 hk] at h
  cases h

theorem GoMap.get?_of_mem {V : Type} (m : GoMap V) (hnd : m.keys.Nodup) (k : String) (v : V)
    (h : (k, v) ∈ m) : m.get? k = some v := by
  induction m with
  | nil => cases h
  | cons e m ih =>
    simp only [GoMap.keys, List.map_cons, List.nodup_cons] at hnd
    simp only [List.mem_cons] at h
    simp only [GoMap.get?, List.find?_cons]
    rcases h with h | h
    · subst h
      simp
    · have hne : e.1 ≠ k := by
        intro heq
        apply hnd.1
        rw [heq]
        exact List.mem_map_of_mem Prod.fst h
      simp only [hne, decide_False]
      exact ih hnd.2 h

theorem GoMap.mem_keys_delete {V : Type} (m : GoMap V) (k p : String) :
    p ∈ (m.delete k).keys ↔ p ∈ m.keys ∧ p ≠ k := by
  simp only [GoMap.delete, GoMap.keys, List.mem_map, List.mem_filter, decide_eq_true_eq]
  constructor
  · rintro ⟨e, ⟨he, hne⟩, rfl⟩
    exact ⟨⟨e, he, rfl⟩, hne⟩
  · rintro ⟨⟨e, he, rfl⟩, hne⟩
    exact ⟨e, ⟨he, hne⟩, rfl⟩

theorem sampleTestLib_keys (l : List String) (p : String) :
    p ∈ (sampleTestLib.convertListToMap l).keys ↔ p ∈ l := by
  simp [sampleTestLib, GoMap.keys]

theorem validateTransfers_sources (lib : TestLib) (isSrcEncoded : Bool) (tp : transferParams)
    (transfers : List CopyTransfer) (lookupMap : GoMap Int)
    (h : validateTransfers lib isSrcEncoded tp transfers lookupMap = Except.ok ()) :
    (transfers.map (lookedUpSource lib isSrcEncoded)).Nodup
      ∧ ∀ s ∈ transfers.map (lookedUpSource lib isSrcEncoded), s ∈ lookupMap.keys := by
  induction transfers generalizing lookupMap with
  | nil => simp
  | cons t rest ih =>
    rw [validateTransfers] at h
    split at h
    · cases h
    · split at h
      · cases h
      · split at h
        · cases h
        · split at h
          · cases h
          · split at h
            · cases h
            · rename_i u hassert
              cases u
              rw [Assert_ok_iff, Option.isSome_iff_exists] at hassert
              obtain ⟨v, hv⟩ := hassert
              have hkey := GoMap.mem_keys_of_get? _ _ _ hv
              obtain ⟨hnd, hsub⟩ := ih _ h
              simp only [List.map_cons, List.nodup_cons, List.mem_cons, forall_eq_or_imp]
              refine ⟨⟨?_, hnd⟩, hkey, ?_⟩
              · intro hmem
                exact ((GoMap.mem_keys_delete _ _ _).1 (hsub _ hmem)).2 rfl
              · intro s hs
                exact ((GoMap.mem_keys_delete _ _ _).1 (hsub s hs)).1

end lemmas

/-- C22: whenever `validateSetPropertiesTransfersAreScheduled` passes, and `convertListToMap`
gives a map whose keys are exactly the listed paths, the looked-up sources of the recorded
transfers (path-unescaped when `isSrcEncoded`) are pairwise distinct and are a permutation of
`expectedTransfers`: no transfer has an unexpected source, and every expected path is the
source of exactly one transfer. -/
theorem validate_sources_permutation (lib : TestLib) (isSrcEncoded : Bool)
    (expectedTransfers : List String) (tp : transferParams) (mockedRPC : interceptor)
    (hkeys : ∀ p : String,
      p ∈ (lib.convertListToMap expectedTransfers).keys ↔ p ∈ expectedTransfers)
    (hpass : validateSetPropertiesTransfersAreScheduled lib isSrcEncoded expectedTransfers tp
      mockedRPC = Except.ok ()) :
    (mockedRPC.transfers.map (lookedUpSource lib isSrcEncoded)).Nodup
      ∧ (mockedRPC.transfers.map (lookedUpSource lib isSrcEncoded)).Perm expectedTransfers
      ∧ (∀ s ∈ mockedRPC.transfers.map (lookedUpSource lib isSrcEncoded),
          s ∈ expectedTransfers)
      ∧ (∀ p ∈ expectedTransfers,
          (mockedRPC.transfers.map (lookedUpSource lib isSrcEncoded)).count p = 1) := by
  unfold validateSetPropertiesTransfersAreScheduled at hpass
  split at hpass
  · cases hpass
  · rename_i u hlen
    cases u
    rw [Assert_ok_iff, decide_eq_true_eq] at hlen
    obtain ⟨hnd, hsub⟩ := validateTransfers_sources lib isSrcEncoded tp _ _ hpass
    have hsub' : ∀ s ∈ mockedRPC.transfers.map (lookedUpSource lib isSrcEncoded),
        s ∈ expectedTransfers := fun s hs => (hkeys s).1 (hsub s hs)
    have hperm : (mockedRPC.transfers.map (lookedUpSource lib isSrcEncoded)).Perm
        expectedTransfers := by
      apply List.Subperm.perm_of_length_le (List.subperm_of_subset hnd hsub')
      rw [List.length_map, hlen]
    refine ⟨hnd, hperm, hsub', ?_⟩
    intro p hp
    exact List.count_eq_one_of_mem hnd (hperm.mem_iff.2 hp)

/-- Witness of C22: the two transfers of the include-and-exclude test, recorded in the other
order, pass the validation and are a permutation of the expected paths. -/
theorem validate_sources_permutation_witness :
    ([dispatch coolChanges "includeSub/amazing.jpeg", dispatch coolChanges "important.pdf"].map
        (lookedUpSource sampleTestLib true)).Perm ["important.pdf", "includeSub/amazing.jpeg"] :=
  (validate_sources_permutation sampleTestLib true ["important.pdf", "includeSub/amazing.jpeg"]
    coolParams
    { transfers := [dispatch coolChanges "includeSub/amazing.jpeg",
        dispatch coolChanges "important.pdf"] }
    (sampleTestLib_keys _) (by decide)).2.1

/-- C23, at the failing input: for `mapA = {"a": ""}` and `mapB = {"b": ""}` `checkTagsEqual`
passes, because `mapB["a"]` is the zero value `""`, although the maps have different keys. -/
theorem checkTagsEqual_accepts_unequal :
    checkTagsEqual [("a", "")] [("b", "")] = Except.ok ()
      ∧ GoMap.get? ([("a", "")] : GoMap String) "a" = some ""
      ∧ GoMap.get? ([("b", "")] : GoMap String) "a" = none
      ∧ ¬ GoMap.Equal ([("a", "")] : GoMap String) [("b", "")] := by
  refine ⟨by decide, by decide, by decide, ?_⟩
  intro h
  have := h "a"
  revert this
  decide

/-- C24: whenever `checkMetadataEqual` completes without a failed assertion and without a nil
dereference, `mapA` holds no nil value, the keys of the two maps are the same, and at every key
both maps point to the same string; so the maps are equal.  A key of `mapA` that is missing
from `mapB` makes the check fail. -/
theorem checkMetadataEqual_sound (mapA mapB : GoMap (Option String))
    (hA : mapA.keys.Nodup) (hpass : checkMetadataEqual mapA mapB = Except.ok ()) :
    (∀ kv ∈ mapA, kv.2 ≠ none)
      ∧ mapA.keys.Perm mapB.keys
      ∧ (∀ k : String, k ∈ mapA.keys ↔ k ∈ mapB.keys)
      ∧ (∀ k ∈ mapA.keys, ∃ s : String,
          mapA.get? k = some (some s) ∧ mapB.get? k = some (some s))
      ∧ GoMap.Equal mapA mapB := by
  unfold checkMetadataEqual at hpass
  split at hpass
  · cases hpass
  · rename_i u hlen
    cases u
    rw [Assert_ok_iff, decide_eq_true_eq] at hlen
    rw [rangeCheck_ok_iff] at hpass
    have hentry : ∀ kv ∈ mapA, ∃ s : String, kv.2 = some s ∧ mapB.get? kv.1 = some (some s) := by
      intro kv hkv
      have h := hpass kv hkv
      simp only at h
      cases hb : mapB.get? kv.1 with
      | none => simp [GoMap.get, hb, deref] at h
      | some pb =>
        cases pb with
        | none => simp [GoMap.get, hb, deref] at h
        | some b =>
          cases ha : kv.2 with
          | none => simp [GoMap.get, hb, deref, ha] at h
          | some a =>
            simp only [GoMap.get, hb, Option.getD_some, deref, ha, Assert_ok_iff,
              decide_eq_true_eq] at h
            exact ⟨a, rfl, by rw [h]⟩
    have hsub : mapA.keys ⊆ mapB.keys := by
      intro k hk
      simp only [GoMap.keys, List.mem_map] at hk
      obtain ⟨kv, hkv, rfl⟩ := hk
      obtain ⟨s, -, hs⟩ := hentry kv hkv
      exact GoMap.mem_keys_of_get? _ _ _ hs
    have hperm : mapA.keys.Perm mapB.keys := by
      apply List.Subperm.perm_of_length_le (List.subperm_of_subset hA hsub)
      simp only [GoMap.keys, List.length_map]
      omega
    have hval : ∀ k ∈ mapA.keys, ∃ s : String,
        mapA.get? k = some (some s) ∧ mapB.get? k = some (some s) := by
      intro k hk
      simp only [GoMap.keys, List.mem_map] at hk
      obtain ⟨kv, hkv, rfl⟩ := hk
      obtain ⟨s, hs1, hs2⟩ := hentry kv hkv
      refine ⟨s, ?_, hs2⟩
      have := GoMap.get?_of_mem mapA hA kv.1 kv.2 hkv
      rw [this, hs1]
    refine ⟨?_, hperm, fun k => hperm.mem_iff, hval, ?_⟩
    · intro kv hkv hnone
      obtain ⟨s, hs, -⟩ := hentry kv hkv
      rw [hnone] at hs
      cases hs
    · intro k
      by_cases hk : k ∈ mapA.keys
      · obtain ⟨s, h1, h2⟩ := hval k hk
        rw [h1, h2]
      · have hk' : k ∉ mapB.keys := fun h => hk (hperm.mem_iff.2 h)
        rw [(GoMap.get?_eq_none_iff _ _).2 hk, (GoMap.get?_eq_none_iff _ _).2 hk']

/-- A key of `mapA` that `mapB` lacks ends `checkMetadataEqual` in a nil dereference or, when
the sizes differ, in the failed size assertion: it never passes. -/
theorem checkMetadataEqual_missing_key (mapA mapB : GoMap (Option String)) (k : String)
    (hk : k ∈ mapA.keys) (hmiss : k ∉ mapB.keys) :
    checkMetadataEqual mapA mapB ≠ Except.ok () := by
  intro hpass
  unfold checkMetadataEqual at hpass
  split at hpass
  · cases hpass
  · rw [rangeCheck_ok_iff] at hpass
    simp only [GoMap.keys, List.mem_map] at hk
    obtain ⟨kv, hkv, rfl⟩ := hk
    have h := hpass kv hkv
    simp [GoMap.get, (GoMap.get?_eq_none_iff _ _).2 hmiss, deref] at h

/-- Witness of C24: the metadata `abc=def;metadata=value` against itself. -/
theorem checkMetadataEqual_sound_witness :
    GoMap.Equal
      (Metadata.pointers [("abc", "def"), ("metadata", "value")])
      (Metadata.pointers [("abc", "def"), ("metadata", "value")]) :=
  (checkMetadataEqual_sound
    (Metadata.pointers [("abc", "def"), ("metadata", "value")])
    (Metadata.pointers [("abc", "def"), ("metadata", "value")])
    (by decide) (by decide)).2.2.2.2

end cmd

namespace cmd

section lemmas

theorem assignSlice_at (pre mid : List String) (j k : Nat) (v : String)
    (hj : j < mid.length) (hk : k = pre.length + j) :
    assignSlice (pre ++ mid) k v = Except.ok (pre ++ mid.set j v) := by
  subst hk
  unfold assignSlice
  rw [if_pos (by rw [List.length_append]; omega),
    List.set_append_right _ _ (Nat.le_add_right _ _), Nat.add_sub_cancel_left]

theorem indexSlice_of_lt (s : List String) (i : Nat) (h : i < s.length) :
    indexSlice s i = Except.ok (s.getD i "") := by
  unfold indexSlice
  rw [List.getD_eq_getElem?_getD, List.getElem?_eq_getElem h]
  rfl

theorem scenarioRound_eq {W : Type} (env : ScenarioEnv W) (pfx : String)
    (accessTier : Option AccessTier) (i : Nat) (cc : W) (pre post : List String)
    (e1 e2 e3 e4 e5 : String) (hlen : pre.length = 5 * i)
    (hi : i < env.specialNames.length) :
    scenarioRound env pfx accessTier i (cc, pre ++ e1 :: e2 :: e3 :: e4 :: e5 :: post)
      = match createAll env accessTier cc (roundPrefixes pfx (env.specialNames.getD i "")) with
        | Except.error e => Except.error e
        | Except.ok rs => Except.ok (rs.1, pre ++ rs.2 ++ post) := by
  simp only [scenarioRound, roundPrefixes, createAll, bind, Except.bind,
    indexSlice_of_lt _ _ hi]
  cases h1 : env.createNewBlockBlobWithAccessTier cc (pfx ++ "top") accessTier with
  | error e => rfl
  | ok r1 =>
    simp only
    cases h2 : env.createNewBlockBlobWithAccessTier r1.1 (pfx ++ "sub1/") accessTier with
    | error e => rfl
    | ok r2 =>
      simp only
      cases h3 : env.createNewBlockBlobWithAccessTier r2.1 (pfx ++ "sub2/") accessTier with
      | error e => rfl
      | ok r3 =>
        simp only
        cases h4 : env.createNewBlockBlobWithAccessTier r3.1 (pfx ++ "sub1/sub3/sub5/")
            accessTier with
        | error e => rfl
        | ok r4 =>
          simp only
          cases h5 : env.createNewBlockBlobWithAccessTier r4.1
              (pfx ++ env.specialNames.getD i "") accessTier with
          | error e => rfl
          | ok r5 =>
            simp only
            rw [assignSlice_at pre _ 0 (5 * i) r1.2 (by simp) (by omega)]
            simp only [List.set_cons_zero]
            rw [assignSlice_at pre _ 1 (5 * i + 1) r2.2 (by simp) (by omega)]
            simp only [List.set_cons_zero, List.set_cons_succ]
            rw [assignSlice_at pre _ 2 (5 * i + 2) r3.2 (by simp) (by omega)]
            simp only [List.set_cons_zero, List.set_cons_succ]
            rw [assignSlice_at pre _ 3 (5 * i + 3) r4.2 (by simp) (by omega)]
            simp only [List.set_cons_zero, List.set_cons_succ]
            rw [assignSlice_at pre _ 4 (5 * i + 4) r5.2 (by simp) (by omega)]
            simp only [List.set_cons_zero, List.set_cons_succ, pure, Except.pure,
              List.append_assoc, List.cons_append, List.nil_append]

theorem createAll_append {W : Type} (env : ScenarioEnv W) (accessTier : Option AccessTier)
    (cc : W) (a b : List String) :
    createAll env accessTier cc (a ++ b)
      = match createAll env accessTier cc a with
        | Except.error e => Except.error e
        | Except.ok ra =>
          match createAll env accessTier ra.1 b with
          | Except.error e => Except.error e
          | Except.ok rb => Except.ok (rb.1, ra.2 ++ rb.2) := by
  induction a generalizing cc with
  | nil =>
    simp only [List.nil_append, createAll]
    cases createAll env accessTier cc b <;> rfl
  | cons p ps ih =>
    rw [List.cons_append, createAll, createAll]
    cases env.createNewBlockBlobWithAccessTier cc p accessTier with
    | error e => rfl
    | ok r =>
      simp only
      rw [ih]
      cases createAll env accessTier r.1 ps with
      | error e => rfl
      | ok ra =>
        simp only
        cases createAll env accessTier ra.1 b <;> rfl

theorem createAll_length {W : Type} (env : ScenarioEnv W) (accessTier : Option AccessTier)
    (cc : W) (ps : List String) (rs : W × List String)
    (h : createAll env accessTier cc ps = Except.ok rs) : rs.2.length = ps.length := by
  induction ps generalizing cc rs with
  | nil =>
    simp only [createAll, Except.ok.injEq] at h
    rw [← h]
  | cons p ps ih =>
    rw [createAll] at h
    split at h
    · cases h
    · rename_i r _
      split at h
      · cases h
      · rename_i rs' hrs
        simp only [Except.ok.injEq] at h
        rw [← h]
        simp only [List.length_cons, ih _ _ hrs]

theorem createAll_total {W : Type} (env : ScenarioEnv W) (accessTier : Option AccessTier)
    (hok : ∀ (cc : W) (p : String), ∃ r, env.createNewBlockBlobWithAccessTier cc p accessTier
      = Except.ok r)
    (cc : W) (ps : List String) : ∃ rs, createAll env accessTier cc ps = Except.ok rs := by
  induction ps generalizing cc with
  | nil => exact ⟨_, rfl⟩
  | cons p ps ih =>
    obtain ⟨r, hr⟩ := hok cc p
    obtain ⟨rs, hrs⟩ := ih r.1
    exact ⟨(rs.1, r.2 :: rs.2), by simp only [createAll, hr, hrs]⟩

theorem roundsPrefixes_cons (pfx x : String) (xs : List String) :
    roundsPrefixes pfx (x :: xs) = roundPrefixes pfx x ++ roundsPrefixes pfx xs := by
  simp [roundsPrefixes]

theorem roundsPrefixes_length (pfx : String) (xs : List String) :
    (roundsPrefixes pfx xs).length = 5 * xs.length := by
  induction xs with
  | nil => rfl
  | cons x xs ih =>
    rw [roundsPrefixes_cons, List.length_append, ih]
    simp only [roundPrefixes, List.length_cons, List.length_nil]
    omega

theorem roundsPrefixes_slot (pfx : String) (xs : List String) (i j : Nat)
    (hi : i < xs.length) (hj : j < 5) :
    (roundsPrefixes pfx xs)[5 * i + j]? = (roundPrefixes pfx (xs.getD i ""))[j]? := by
  induction xs generalizing i with
  | nil => simp at hi
  | cons x xs ih =>
    rw [roundsPrefixes_cons]
    cases i with
    | zero =>
      rw [List.getElem?_append_left (by simp [roundPrefixes]; omega)]
      simp
    | succ i =>
      rw [List.getElem?_append_right (by simp [roundPrefixes]; omega)]
      have h5 : 5 * (i + 1) + j - (roundPrefixes pfx x).length = 5 * i + j := by
        simp [roundPrefixes]
        omega
      rw [h5, ih i (by simpa using hi)]
      simp

theorem scenarioLoop_eq {W : Type} (env : ScenarioEnv W) (pfx : String)
    (accessTier : Option AccessTier) (n : Nat) :
    ∀ (i : Nat) (cc : W) (pre : List String), pre.length = 5 * i →
      i + n ≤ env.specialNames.length →
      scenarioLoop env pfx accessTier n i (cc, pre ++ List.replicate (5 * n) "")
        = match createAll env accessTier cc
            (roundsPrefixes pfx ((env.specialNames.drop i).take n)) with
          | Except.error e => Except.error e
          | Except.ok rs => Except.ok (rs.1, pre ++ rs.2) := by
  induction n with
  | zero =>
    intro i cc pre _ _
    simp [scenarioLoop, roundsPrefixes, createAll]
  | succ n ih =>
    intro i cc pre hlen hin
    have hi : i < env.specialNames.length := by omega
    have hrep : List.replicate (5 * (n + 1)) ""
        = "" :: "" :: "" :: "" :: "" :: List.replicate (5 * n) "" := by
      rw [show 5 * (n + 1) = 5 * n + 1 + 1 + 1 + 1 + 1 by omega]
      simp only [List.replicate_succ]
    have hdrop : (env.specialNames.drop i).take (n + 1)
        = env.specialNames.getD i "" :: (env.specialNames.drop (i + 1)).take n := by
      rw [List.drop_eq_getElem_cons hi, List.take_succ_cons, List.getD_eq_getElem?_getD,
        List.getElem?_eq_getElem hi]
      rfl
    rw [hrep, scenarioLoop, scenarioRound_eq env pfx accessTier i cc pre _ _ _ _ _ _ hlen hi,
      hdrop, roundsPrefixes_cons, createAll_append]
    cases hra : createAll env accessTier cc
        (roundPrefixes pfx (env.specialNames.getD i "")) with
    | error e => rfl
    | ok ra =>
      simp only
      have hlra := createAll_length env accessTier cc _ ra hra
      have hpre : (pre ++ ra.2).length = 5 * (i + 1) := by
        rw [List.length_append, hlen, hlra]
        simp only [roundPrefixes, List.length_cons, List.length_nil]
        omega
      rw [ih (i + 1) ra.1 (pre ++ ra.2) hpre (by omega)]
      cases createAll env accessTier ra.1
          (roundsPrefixes pfx ((env.specialNames.drop (i + 1)).take n)) with
      | error e => rfl
      | ok rb => simp only [List.append_assoc]

end lemmas

/-- C25: the slot index `5*i+j`, for `0 <= i < 10` and `0 <= j < 5`, lies in `[0, 50)`,
distinct pairs give distinct slots and every slot below 50 is one of them.  With ten special
names at hand, `generateCommonRemoteScenarioForBlobWithAccessTier` is the creation of the fifty
blobs in slot order, slot `5*i+j` holding the name of kind `j` (top, `sub1/`, `sub2/`,
`sub1/sub3/sub5/`, special name `i`) of round `i`; what it returns is a list of exactly 50
names; and it returns whenever every upload succeeds. -/
theorem generateCommonRemoteScenario_slots {W : Type} (env : ScenarioEnv W) (cc : W)
    (pfx : String) (accessTier : Option AccessTier)
    (hspecial : 10 ≤ env.specialNames.length) :
    (∀ i j : Nat, i < 10 → j < 5 → 5 * i + j < 50)
      ∧ (∀ i j i' j' : Nat, i < 10 → j < 5 → i' < 10 → j' < 5 →
          5 * i + j = 5 * i' + j' → i = i' ∧ j = j')
      ∧ (∀ s : Nat, s < 50 → ∃ i j : Nat, i < 10 ∧ j < 5 ∧ s = 5 * i + j)
      ∧ generateCommonRemoteScenarioForBlobWithAccessTier env cc pfx accessTier
        = createAll env accessTier cc (scenarioPrefixes pfx env.specialNames)
      ∧ (scenarioPrefixes pfx env.specialNames).length = 50
      ∧ (∀ i j : Nat, i < 10 → j < 5 →
          (scenarioPrefixes pfx env.specialNames)[5 * i + j]?
            = (roundPrefixes pfx (env.specialNames.getD i ""))[j]?)
      ∧ (∀ (cc' : W) (blobList : List String),
          generateCommonRemoteScenarioForBlobWithAccessTier env cc pfx accessTier
            = Except.ok (cc', blobList) → blobList.length = 50)
      ∧ ((∀ (w : W) (p : String),
            ∃ r, env.createNewBlockBlobWithAccessTier w p accessTier = Except.ok r) →
          ∃ (cc' : W) (blobList : List String),
            generateCommonRemoteScenarioForBlobWithAccessTier env cc pfx accessTier
              = Except.ok (cc', blobList)) := by
  have hgen : generateCommonRemoteScenarioForBlobWithAccessTier env cc pfx accessTier
      = createAll env accessTier cc (scenarioPrefixes pfx env.specialNames) := by
    have h := scenarioLoop_eq env pfx accessTier 10 0 cc [] rfl (by omega)
    simp only [List.nil_append, List.drop_zero, Nat.reduceMul] at h
    rw [generateCommonRemoteScenarioForBlobWithAccessTier, h, scenarioPrefixes]
    cases createAll env accessTier cc (roundsPrefixes pfx (List.take 10 env.specialNames)) <;>
      rfl
  have hlen : (scenarioPrefixes pfx env.specialNames).length = 50 := by
    rw [scenarioPrefixes, roundsPrefixes_length, List.length_take]
    omega
  refine ⟨by omega, by omega, fun s hs => ⟨s / 5, s % 5, by omega, by omega, by omega⟩, hgen,
    hlen, ?_, ?_, ?_⟩
  · intro i j hi hj
    rw [scenarioPrefixes, roundsPrefixes_slot pfx _ i j (by rw [List.length_take]; omega) hj]
    congr 2
    simp only [List.getD_eq_getElem?_getD]
    rw [List.getElem?_take_of_lt hi]
  · intro cc' blobList h
    rw [hgen] at h
    rw [createAll_length env accessTier cc _ _ h, hlen]
  · intro hok
    rw [hgen]
    obtain ⟨rs, hrs⟩ := createAll_total env accessTier hok cc
      (scenarioPrefixes pfx env.specialNames)
    exact ⟨rs.1, rs.2, hrs⟩

/-- Witness of C25: on the sample environment the scenario returns, and its list has 50
names. -/
theorem generateCommonRemoteScenario_slots_witness :
    ∃ (cc' : List String) (blobList : List String),
      generateCommonRemoteScenarioForBlobWithAccessTier sampleScenarioEnv [] "" none
        = Except.ok (cc', blobList) ∧ blobList.length = 50 :=
  match (generateCommonRemoteScenario_slots sampleScenarioEnv [] "" none
      (by decide)).2.2.2.2.2.2.2 (fun _ _ => ⟨_, rfl⟩) with
  | ⟨cc', blobList, h⟩ =>
    ⟨cc', blobList, h,
      (generateCommonRemoteScenario_slots sampleScenarioEnv [] "" none
        (by decide)).2.2.2.2.2.2.1 cc' blobList h⟩

end cmd

namespace cmd

/-- Equal tag maps pass `checkTagsEqual`. -/
theorem checkTagsEqual_of_equal (mapA mapB : GoMap String) (hA : mapA.keys.Nodup)
    (hB : mapB.keys.Nodup) (heq : GoMap.Equal mapA mapB) :
    checkTagsEqual mapA mapB = Except.ok () := by
  have hsub : ∀ (a b : GoMap String), GoMap.Equal a b → a.keys ⊆ b.keys := by
    intro a b hab k hk
    by_contra hkb
    have h1 := (GoMap.get?_eq_none_iff b k).2 hkb
    rw [← hab k] at h1
    exact (GoMap.get?_eq_none_iff a k).1 h1 hk
  have hlen : mapA.length = mapB.length := by
    have h1 := (List.subperm_of_subset hA (hsub mapA mapB heq)).length_le
    have h2 := (List.subperm_of_subset hB (hsub mapB mapA (fun k => (heq k).symm))).length_le
    simp only [GoMap.keys, List.length_map] at h1 h2
    omega
  unfold checkTagsEqual
  rw [(Assert_ok_iff _).2 (by simpa using hlen)]
  simp only
  rw [rangeCheck_ok_iff]
  intro kv hkv
  rw [Assert_ok_iff, decide_eq_true_eq, GoMap.get, ← heq kv.1,
    GoMap.get?_of_mem mapA hA kv.1 kv.2 hkv]
  rfl

/-- When no value of `mapA` is the empty string, tag maps that pass `checkTagsEqual` are
equal. -/
theorem checkTagsEqual_sound_of_no_empty_value (mapA mapB : GoMap String)
    (hA : mapA.keys.Nodup) (hne : ∀ kv ∈ mapA, kv.2 ≠ "")
    (hpass : checkTagsEqual mapA mapB = Except.ok ()) : GoMap.Equal mapA mapB := by
  unfold checkTagsEqual at hpass
  split at hpass
  · cases hpass
  · rename_i u hlen
    cases u
    rw [Assert_ok_iff, decide_eq_true_eq] at hlen
    rw [rangeCheck_ok_iff] at hpass
    have hentry : ∀ kv ∈ mapA, mapB.get? kv.1 = some kv.2 := by
      intro kv hkv
      have h := hpass kv hkv
      rw [Assert_ok_iff, decide_eq_true_eq, GoMap.get] at h
      cases hb : mapB.get? kv.1 with
      | none =>
        rw [hb] at h
        exact absurd h.symm (hne kv hkv)
      | some b =>
        rw [hb] at h
        simp only [Option.getD_some] at h
        rw [h]
    have hsub : mapA.keys ⊆ mapB.keys := by
      intro k hk
      simp only [GoMap.keys, List.mem_map] at hk
      obtain ⟨kv, hkv, rfl⟩ := hk
      exact GoMap.mem_keys_of_get? _ _ _ (hentry kv hkv)
    have hperm : mapA.keys.Perm mapB.keys := by
      apply List.Subperm.perm_of_length_le (List.subperm_of_subset hA hsub)
      simp only [GoMap.keys, List.length_map]
      omega
    intro k
    by_cases hk : k ∈ mapA.keys
    · have hk' := hk
      simp only [GoMap.keys, List.mem_map] at hk'
      obtain ⟨kv, hkv, rfl⟩ := hk'
      rw [GoMap.get?_of_mem mapA hA kv.1 kv.2 hkv, hentry kv hkv]
    · have hkb : k ∉ mapB.keys := fun h => hk (hperm.mem_iff.2 h)
      rw [(GoMap.get?_eq_none_iff _ _).2 hk, (GoMap.get?_eq_none_iff _ _).2 hkb]

end cmd
